import Mathlib

/-!
# SoundSynthesizer: a shallow embedding of `SoundSynthesizer.cpp`

The synthesis engine of the repository (oscillator, scale, ADSR envelope, the six
instruments, the step sequencer and the render callback `MakeNoise`) is translated
function by function into Lean.

Modelling conventions.

* `FTYPE` (`double` in the source, `float` for the sequencer tempo) is modelled by the
  exact rationals `ℚ`: rounding is not modelled.  A quotient whose divisor is zero is
  `0` in `ℚ` whereas IEEE arithmetic yields an infinity or a NaN; the statements about
  envelope levels are made for positive stage times.  The divisors used by the envelope
  are listed by `amplitude_divisors`, and `amplitude_x` is the envelope with the IEEE
  results of a division by zero; both agree when no divisor is zero (`amplitude_x_eq`).
  Overflow is modelled where a statement depends on it: `xfloat.range` turns an exact
  result beyond the range of the doubles into an infinity, and `scale_x`, `osc_sine_x`
  and `instrument_bell.sound_x` are the frequency, the sine oscillator and the bell on
  doubles with overflow.  Rounding is modelled where a statement depends on it:
  `round_double` is the nearest double, and `sequencer.Update_fl` is the sequencer clock
  with the sum and the differences rounded.
* `int` is modelled by `Int` (no wrap-around; the counters of the program stay small).
* What the C library provides and `ℚ` cannot compute (`sin`, `asin`, the constant `PI`
  of the absent header `olcNoiseMaker.h`, and the stateful generator `rand`) is a
  parameter, the structure `Libm`.  The generator state is the number of calls made so
  far; `rand k` is the value returned by call number `k`.
* A `bool&` out-parameter is an input flag and a returned flag.
* The global registry `vecNotes` is passed in and returned; the mutex is not modelled.
-/

namespace synth

/-- The sample type of the source (`#define FTYPE double`), in exact arithmetic. -/
abbrev FTYPE := ℚ

/-- The parts of the C library and of `olcNoiseMaker.h` used by the synthesizer. -/
structure Libm where
  /-- The constant `PI` of `olcNoiseMaker.h`. -/
  PI : FTYPE
  /-- The library function `sin`. -/
  sin : FTYPE → FTYPE
  /-- The library function `asin`. -/
  asin : FTYPE → FTYPE
  /-- The constant `RAND_MAX`. -/
  RAND_MAX : ℕ
  /-- The value returned by the call number `k` of `rand()`. -/
  rand : ℕ → ℕ

/-- The library sine takes its values in `[-1, 1]`. -/
def Libm.SinBounded (m : Libm) : Prop := ∀ x, -1 ≤ m.sin x ∧ m.sin x ≤ 1

/-- Converts frequency (Hz) to angular velocity. -/
def w (m : Libm) (dHertz : FTYPE) : FTYPE := dHertz * 2 * m.PI

/-- The ADSR envelope parameters (`struct envelope_adsr`). -/
structure envelope_adsr where
  dAttackTime : FTYPE
  dDecayTime : FTYPE
  dSustainAmplitude : FTYPE
  dReleaseTime : FTYPE
  dStartAmplitude : FTYPE
deriving DecidableEq

/-- The six classes derived from `instrument_base` (the target of virtual dispatch). -/
inductive instrument_kind where
  | bell
  | bell8
  | harmonica
  | drumkick
  | drumsnare
  | drumhihat
deriving DecidableEq

/-- The data members of `struct instrument_base` (the display name is left out) together
with the dynamic class of the object. -/
structure instrument_base where
  dVolume : FTYPE
  env : envelope_adsr
  fMaxLifeTime : FTYPE
  kind : instrument_kind
deriving DecidableEq

/-- A basic note (`struct note`); `channel = none` is the null pointer. -/
structure note where
  id : Int
  /-- The member `on` of the source (`on` is a reserved word of Lean). -/
  on_ : FTYPE
  off : FTYPE
  active : Bool
  channel : Option instrument_base
deriving DecidableEq

/-- The default constructor `note::note()`. -/
def note.new : note :=
  { id := 0, on_ := 0, off := 0, active := false, channel := none }

def OSC_SINE : Int := 0
def OSC_SQUARE : Int := 1
def OSC_TRIANGLE : Int := 2
def OSC_SAW_ANA : Int := 3
def OSC_SAW_DIG : Int := 4
def OSC_NOISE : Int := 5

/-- The library function `fmod` in exact arithmetic: `x - y * trunc (x / y)`. -/
def fmod (x y : FTYPE) : FTYPE :=
  x - y * (if 0 ≤ x / y then ((x / y).floor : FTYPE) else ((x / y).ceil : FTYPE))

/-- The loop `for (FTYPE n = 1.0; n < dCustom; n++) dOutput += (sin(n * dFreq)) / n;` of
the analogue saw wave.  The first argument bounds the number of iterations. -/
def saw_ana_loop (m : Libm) (dFreq dCustom : FTYPE) : ℕ → FTYPE → FTYPE → FTYPE
  | 0, _, dOutput => dOutput
  | fuel + 1, n, dOutput =>
    if n < dCustom then
      saw_ana_loop m dFreq dCustom fuel (n + 1) (dOutput + m.sin (n * dFreq) / n)
    else dOutput

/-- The multi-function oscillator `osc`.  The last argument and the second component of
the result are the state of `rand` before and after the call. -/
def osc (m : Libm) (dTime dHertz : FTYPE) (nType : Int)
    (dLFOHertz dLFOAmplitude dCustom : FTYPE) (seed : ℕ) : FTYPE × ℕ :=
  let dFreq := w m dHertz * dTime + dLFOAmplitude * dHertz * m.sin (w m dLFOHertz * dTime)
  if nType = OSC_SINE then (m.sin dFreq, seed)
  else if nType = OSC_SQUARE then ((if m.sin dFreq > 0 then 1 else -1), seed)
  else if nType = OSC_TRIANGLE then (m.asin (m.sin dFreq) * (2 / m.PI), seed)
  else if nType = OSC_SAW_ANA then
    (saw_ana_loop m dFreq dCustom dCustom.ceil.toNat 1 0 * (2 / m.PI), seed)
  else if nType = OSC_SAW_DIG then
    ((2 / m.PI) * (dHertz * m.PI * fmod dTime (1 / dHertz) - m.PI / 2), seed)
  else if nType = OSC_NOISE then
    (2 * ((m.rand seed : FTYPE) / (m.RAND_MAX : FTYPE)) - 1, seed + 1)
  else (0, seed)

def SCALE_DEFAULT : Int := 0

/-- Scale to frequency conversion; the `switch` has the single arm
`case SCALE_DEFAULT: default:`. -/
def scale (nNoteID : Int) (_nScaleID : Int) : FTYPE :=
  8 * (1.0594630943592952645618252949463 : FTYPE) ^ nNoteID

/-- The constructor `envelope_adsr::envelope_adsr()`. -/
def envelope_adsr.new : envelope_adsr :=
  { dAttackTime := 0.1, dDecayTime := 0.1, dSustainAmplitude := 1.0,
    dReleaseTime := 0.2, dStartAmplitude := 1.0 }

/-- The level reached `dLifeTime` after note-on by the three consecutive `if` statements
shared by both branches of `envelope_adsr::amplitude`, starting from the level `init`. -/
def envelope_adsr.stage (e : envelope_adsr) (dLifeTime init : FTYPE) : FTYPE :=
  let a1 :=
    if dLifeTime ≤ e.dAttackTime then (dLifeTime / e.dAttackTime) * e.dStartAmplitude
    else init
  let a2 :=
    if dLifeTime > e.dAttackTime ∧ dLifeTime ≤ e.dAttackTime + e.dDecayTime then
      ((dLifeTime - e.dAttackTime) / e.dDecayTime) * (e.dSustainAmplitude - e.dStartAmplitude)
        + e.dStartAmplitude
    else a1
  if dLifeTime > e.dAttackTime + e.dDecayTime then e.dSustainAmplitude else a2

/-- The method `envelope_adsr::amplitude`. -/
def envelope_adsr.amplitude (e : envelope_adsr) (dTime dTimeOn dTimeOff : FTYPE) : FTYPE :=
  let dAmplitude :=
    if dTimeOn > dTimeOff then
      -- Note is on
      e.stage (dTime - dTimeOn) 0
    else
      -- Note is off
      let dReleaseAmplitude := e.stage (dTimeOff - dTimeOn) 0
      ((dTime - dTimeOff) / e.dReleaseTime) * (0 - dReleaseAmplitude) + dReleaseAmplitude
  -- Amplitude should not be negative
  if dAmplitude ≤ 0.01 then 0 else dAmplitude

/-- The free function `env`. -/
def env (dTime : FTYPE) (e : envelope_adsr) (dTimeOn dTimeOff : FTYPE) : FTYPE :=
  e.amplitude dTime dTimeOn dTimeOff

/-- The object built by `instrument_bell::instrument_bell()`. -/
def instrument_bell : instrument_base :=
  { env := { envelope_adsr.new with
      dAttackTime := 0.01, dDecayTime := 1.0, dSustainAmplitude := 0.0, dReleaseTime := 1.0 },
    fMaxLifeTime := 3.0, dVolume := 1.0, kind := .bell }

/-- The object built by `instrument_bell8::instrument_bell8()`. -/
def instrument_bell8 : instrument_base :=
  { env := { envelope_adsr.new with
      dAttackTime := 0.01, dDecayTime := 0.5, dSustainAmplitude := 0.8, dReleaseTime := 1.0 },
    fMaxLifeTime := 3.0, dVolume := 1.0, kind := .bell8 }

/-- The object built by `instrument_harmonica::instrument_harmonica()`. -/
def instrument_harmonica : instrument_base :=
  { env := { envelope_adsr.new with
      dAttackTime := 0.00, dDecayTime := 1.0, dSustainAmplitude := 0.95, dReleaseTime := 0.1 },
    fMaxLifeTime := -1.0, dVolume := 0.3, kind := .harmonica }

/-- The object built by `instrument_drumkick::instrument_drumkick()`. -/
def instrument_drumkick : instrument_base :=
  { env := { envelope_adsr.new with
      dAttackTime := 0.01, dDecayTime := 0.15, dSustainAmplitude := 0.0, dReleaseTime := 0.0 },
    fMaxLifeTime := 1.5, dVolume := 1.0, kind := .drumkick }

/-- The object built by `instrument_drumsnare::instrument_drumsnare()`. -/
def instrument_drumsnare : instrument_base :=
  { env := { envelope_adsr.new with
      dAttackTime := 0.0, dDecayTime := 0.2, dSustainAmplitude := 0.0, dReleaseTime := 0.0 },
    fMaxLifeTime := 1.0, dVolume := 1.0, kind := .drumsnare }

/-- The object built by `instrument_drumhihat::instrument_drumhihat()`. -/
def instrument_drumhihat : instrument_base :=
  { env := { envelope_adsr.new with
      dAttackTime := 0.01, dDecayTime := 0.05, dSustainAmplitude := 0.0, dReleaseTime := 0.0 },
    fMaxLifeTime := 1.0, dVolume := 0.5, kind := .drumhihat }

/-- The method `instrument_bell::sound`. -/
def instrument_bell.sound (m : Libm) (self : instrument_base) (dTime : FTYPE) (n : note)
    (bNoteFinished : Bool) (seed : ℕ) : FTYPE × Bool × ℕ :=
  let dAmplitude := env dTime self.env n.on_ n.off
  let bNoteFinished := if dAmplitude ≤ 0 then true else bNoteFinished
  let o1 := osc m (dTime - n.on_) (scale (n.id + 12) SCALE_DEFAULT) OSC_SINE 5.0 0.001 50 seed
  let o2 := osc m (dTime - n.on_) (scale (n.id + 24) SCALE_DEFAULT) OSC_SINE 0 0 50 o1.2
  let o3 := osc m (dTime - n.on_) (scale (n.id + 36) SCALE_DEFAULT) OSC_SINE 0 0 50 o2.2
  let dSound := 1.00 * o1.1 + 0.50 * o2.1 + 0.25 * o3.1
  (dAmplitude * dSound * self.dVolume, bNoteFinished, o3.2)

/-- The method `instrument_bell8::sound`. -/
def instrument_bell8.sound (m : Libm) (self : instrument_base) (dTime : FTYPE) (n : note)
    (bNoteFinished : Bool) (seed : ℕ) : FTYPE × Bool × ℕ :=
  let dAmplitude := env dTime self.env n.on_ n.off
  let bNoteFinished := if dAmplitude ≤ 0 then true else bNoteFinished
  let o1 := osc m (dTime - n.on_) (scale n.id SCALE_DEFAULT) OSC_SQUARE 5.0 0.001 50 seed
  let o2 := osc m (dTime - n.on_) (scale (n.id + 12) SCALE_DEFAULT) OSC_SINE 0 0 50 o1.2
  let o3 := osc m (dTime - n.on_) (scale (n.id + 24) SCALE_DEFAULT) OSC_SINE 0 0 50 o2.2
  let dSound := 1.00 * o1.1 + 0.50 * o2.1 + 0.25 * o3.1
  (dAmplitude * dSound * self.dVolume, bNoteFinished, o3.2)

/-- The method `instrument_harmonica::sound`. -/
def instrument_harmonica.sound (m : Libm) (self : instrument_base) (dTime : FTYPE) (n : note)
    (bNoteFinished : Bool) (seed : ℕ) : FTYPE × Bool × ℕ :=
  let dAmplitude := env dTime self.env n.on_ n.off
  let bNoteFinished := if dAmplitude ≤ 0 then true else bNoteFinished
  let o1 := osc m (n.on_ - dTime) (scale (n.id - 12) SCALE_DEFAULT) OSC_SAW_ANA 5.0 0.001 100 seed
  let o2 := osc m (dTime - n.on_) (scale n.id SCALE_DEFAULT) OSC_SQUARE 5.0 0.001 50 o1.2
  let o3 := osc m (dTime - n.on_) (scale (n.id + 12) SCALE_DEFAULT) OSC_SQUARE 0 0 50 o2.2
  let o4 := osc m (dTime - n.on_) (scale (n.id + 24) SCALE_DEFAULT) OSC_NOISE 0 0 50 o3.2
  let dSound := 1.0 * o1.1 + 1.00 * o2.1 + 0.50 * o3.1 + 0.05 * o4.1
  (dAmplitude * dSound * self.dVolume, bNoteFinished, o4.2)

/-- The method `instrument_drumkick::sound`. -/
def instrument_drumkick.sound (m : Libm) (self : instrument_base) (dTime : FTYPE) (n : note)
    (bNoteFinished : Bool) (seed : ℕ) : FTYPE × Bool × ℕ :=
  let dAmplitude := env dTime self.env n.on_ n.off
  let bNoteFinished :=
    if self.fMaxLifeTime > 0 ∧ dTime - n.on_ ≥ self.fMaxLifeTime then true else bNoteFinished
  let o1 := osc m (dTime - n.on_) (scale (n.id - 36) SCALE_DEFAULT) OSC_SINE 1.0 1.0 50 seed
  let o2 := osc m (dTime - n.on_) 0 OSC_NOISE 0 0 50 o1.2
  let dSound := 0.99 * o1.1 + 0.01 * o2.1
  (dAmplitude * dSound * self.dVolume, bNoteFinished, o2.2)

/-- The method `instrument_drumsnare::sound`. -/
def instrument_drumsnare.sound (m : Libm) (self : instrument_base) (dTime : FTYPE) (n : note)
    (bNoteFinished : Bool) (seed : ℕ) : FTYPE × Bool × ℕ :=
  let dAmplitude := env dTime self.env n.on_ n.off
  let bNoteFinished :=
    if self.fMaxLifeTime > 0 ∧ dTime - n.on_ ≥ self.fMaxLifeTime then true else bNoteFinished
  let o1 := osc m (dTime - n.on_) (scale (n.id - 24) SCALE_DEFAULT) OSC_SINE 0.5 1.0 50 seed
  let o2 := osc m (dTime - n.on_) 0 OSC_NOISE 0 0 50 o1.2
  let dSound := 0.5 * o1.1 + 0.5 * o2.1
  (dAmplitude * dSound * self.dVolume, bNoteFinished, o2.2)

/-- The method `instrument_drumhihat::sound`. -/
def instrument_drumhihat.sound (m : Libm) (self : instrument_base) (dTime : FTYPE) (n : note)
    (bNoteFinished : Bool) (seed : ℕ) : FTYPE × Bool × ℕ :=
  let dAmplitude := env dTime self.env n.on_ n.off
  let bNoteFinished :=
    if self.fMaxLifeTime > 0 ∧ dTime - n.on_ ≥ self.fMaxLifeTime then true else bNoteFinished
  let o1 := osc m (dTime - n.on_) (scale (n.id - 12) SCALE_DEFAULT) OSC_SQUARE 1.5 1 50 seed
  let o2 := osc m (dTime - n.on_) 0 OSC_NOISE 0 0 50 o1.2
  let dSound := 0.1 * o1.1 + 0.9 * o2.1
  (dAmplitude * dSound * self.dVolume, bNoteFinished, o2.2)

/-- The virtual call `channel->sound(dTime, n, bNoteFinished)`: the sample, the flag
after the call and the state of `rand` after the call. -/
def instrument_base.sound (m : Libm) (self : instrument_base) (dTime : FTYPE) (n : note)
    (bNoteFinished : Bool) (seed : ℕ) : FTYPE × Bool × ℕ :=
  match self.kind with
  | .bell => instrument_bell.sound m self dTime n bNoteFinished seed
  | .bell8 => instrument_bell8.sound m self dTime n bNoteFinished seed
  | .harmonica => instrument_harmonica.sound m self dTime n bNoteFinished seed
  | .drumkick => instrument_drumkick.sound m self dTime n bNoteFinished seed
  | .drumsnare => instrument_drumsnare.sound m self dTime n bNoteFinished seed
  | .drumhihat => instrument_drumhihat.sound m self dTime n bNoteFinished seed

/-- The channel of a sequencer (`sequencer::channel`): the instrument pointer and the
pattern, a wide string. -/
structure channel where
  instrument : Option instrument_base
  sBeat : List Char
deriving DecidableEq

/-- The data members of `struct sequencer`. -/
structure sequencer where
  nBeats : Int
  nSubBeats : Int
  fTempo : FTYPE
  fBeatTime : FTYPE
  fAccumulate : FTYPE
  nCurrentBeat : Int
  nTotalBeats : Int
  vecChannel : List channel
  vecNotes : List note
deriving DecidableEq

/-- The constructor `sequencer::sequencer(tempo, beats, subbeats)`; both vectors start
empty. -/
def sequencer.new (tempo : FTYPE) (beats subbeats : Int) : sequencer :=
  { nBeats := beats,
    nSubBeats := subbeats,
    fTempo := tempo,
    fBeatTime := (60 / tempo) / (subbeats : FTYPE),
    nCurrentBeat := 0,
    nTotalBeats := subbeats * beats,
    fAccumulate := 0,
    vecChannel := [],
    vecNotes := [] }

/-- The method `sequencer::AddInstrument`: the new channel has an empty pattern. -/
def sequencer.AddInstrument (s : sequencer) (inst : Option instrument_base) : sequencer :=
  { s with vecChannel := s.vecChannel ++ [{ instrument := inst, sBeat := [] }] }

/-- The assignment `seq.vecChannel.at(i).sBeat = pattern` made by `main`. -/
def sequencer.setBeat (s : sequencer) (i : ℕ) (pattern : List Char) : sequencer :=
  { s with vecChannel := s.vecChannel.modify (fun c => { c with sBeat := pattern }) i }

/-- The read `sBeat[i]` of a wide string; `none` stands for a read outside the string,
which compares unequal to every marker. -/
def wstring_at (sBeat : List Char) (i : Int) : Option Char :=
  if i < 0 then none else sBeat.get? i.toNat

/-- The loop `for (auto v : vecChannel)` of `sequencer::Update`: the channels still to
visit, the counter `c` and the notes pushed so far. -/
def sequencer.channel_loop (s : sequencer) : List channel → ℕ → List note → List note
  | [], _, vecNotes => vecNotes
  | v :: rest, c, vecNotes =>
    let vecNotes1 :=
      if wstring_at v.sBeat s.nCurrentBeat = some 'X' then
        vecNotes ++ [{ note.new with
          channel := (match s.vecChannel.get? c with
            | some ch => ch.instrument
            | none => none),
          active := true,
          id := 64 }]
      else vecNotes
    s.channel_loop rest (c + 1) vecNotes1

/-- The body of the loop `while (fAccumulate >= fBeatTime)` of `sequencer::Update`. -/
def sequencer.sub_beat (s : sequencer) : sequencer :=
  let s1 := { s with fAccumulate := s.fAccumulate - s.fBeatTime }
  let s2 := { s1 with nCurrentBeat := s1.nCurrentBeat + 1 }
  let s3 := if s2.nCurrentBeat ≥ s2.nTotalBeats then { s2 with nCurrentBeat := 0 } else s2
  { s3 with vecNotes := s3.channel_loop s3.vecChannel 0 s3.vecNotes }

/-- The loop `while (fAccumulate >= fBeatTime)`; the first argument bounds the number of
iterations and `none` means the bound was reached with the condition still true. -/
def sequencer.while_loop : ℕ → sequencer → Option sequencer
  | 0, s => if s.fAccumulate ≥ s.fBeatTime then none else some s
  | fuel + 1, s =>
    if s.fAccumulate ≥ s.fBeatTime then sequencer.while_loop fuel s.sub_beat else some s

/-- The method `sequencer::Update`: the returned count and the sequencer after the call,
when the loop ends within `fuel` iterations. -/
def sequencer.Update (fuel : ℕ) (s : sequencer) (fElapsedTime : FTYPE) :
    Option (Int × sequencer) :=
  let s1 := { s with vecNotes := [] }
  let s2 := { s1 with fAccumulate := s1.fAccumulate + fElapsedTime }
  (sequencer.while_loop fuel s2).map fun s3 => ((s3.vecNotes.length : Int), s3)

end synth

open synth

/-- The template `safe_remove`: erases the elements on which `f` is false, keeping the
others in place. -/
def safe_remove (f : note → Bool) : List note → List note
  | [] => []
  | n :: rest => if !f n then safe_remove f rest else n :: safe_remove f rest

/-- The loop `for (auto& n : vecNotes)` of `MakeNoise`: the notes still to visit, the sum
`dMixedOutput` so far and the state of `rand`; returns the visited notes (with their
`active` flag updated), the sum and the state of `rand`. -/
def mix_loop (m : Libm) (dTime : FTYPE) : List note → FTYPE → ℕ → List note × FTYPE × ℕ
  | [], dMixedOutput, seed => ([], dMixedOutput, seed)
  | n :: rest, dMixedOutput, seed =>
    let bNoteFinished := false
    let dSound : FTYPE := 0
    -- Get sample for this note by using the correct instrument and envelope
    let r : FTYPE × Bool × ℕ :=
      match n.channel with
      | some c => c.sound m dTime n bNoteFinished seed
      | none => (dSound, bNoteFinished, seed)
    -- Flag note to be removed
    let n1 := if r.2.1 then { n with active := false } else n
    let r1 := mix_loop m dTime rest (dMixedOutput + r.1) r.2.2
    (n1 :: r1.1, r1.2)

/-- What a call of `MakeNoise` leaves behind: the returned sample, the registry
`vecNotes` and the state of `rand`. -/
structure Rendered where
  sample : FTYPE
  vecNotes : List note
  seed : ℕ

/-- The render callback `MakeNoise(nChannel, dTime)` run on the registry `vecNotes`. -/
def MakeNoise (m : Libm) (_nChannel : Int) (dTime : FTYPE) (vecNotes : List note)
    (seed : ℕ) : Rendered :=
  let r := mix_loop m dTime vecNotes 0 seed
  { sample := r.2.1 * 0.2,
    vecNotes := safe_remove (fun item => item.active) r.1,
    seed := r.2.2 }

/-- The registries left by successive calls of `MakeNoise` at the given times. -/
def render_trace (m : Libm) (nChannel : Int) : List FTYPE → List note → ℕ → List (List note)
  | [], _, _ => []
  | t :: ts, vecNotes, seed =>
    let r := MakeNoise m nChannel t vecNotes seed
    r.vecNotes :: render_trace m nChannel ts r.vecNotes r.seed

/-- The sample a note adds to the mix at `dTime` and the state of `rand` afterwards: the
sample of its instrument, or `0` for a note without instrument. -/
def note_sample (m : Libm) (dTime : FTYPE) (n : note) (seed : ℕ) : FTYPE × ℕ :=
  match n.channel with
  | some c => ((c.sound m dTime n false seed).1, (c.sound m dTime n false seed).2.2)
  | none => (0, seed)

/-- The sum of the samples of the notes of a registry, in registry order. -/
def sum_of_samples (m : Libm) (dTime : FTYPE) : List note → ℕ → FTYPE
  | [], _ => 0
  | n :: rest, seed =>
    (note_sample m dTime n seed).1 + sum_of_samples m dTime rest (note_sample m dTime n seed).2

/-- Whether the instrument of a note reports it finished at `dTime`; a note without
instrument is not reported finished. -/
def reports_finished (m : Libm) (dTime : FTYPE) (n : note) (seed : ℕ) : Bool :=
  match n.channel with
  | some c => (c.sound m dTime n false seed).2.1
  | none => false

/-- A computable instance of the library on which the embedding can be evaluated: the
sine is a Taylor polynomial clamped to `[-1, 1]` and `rand` a linear congruential
generator. -/
def libm_model : Libm :=
  { PI := 355 / 113,
    sin := fun x => max (-1) (min 1 (x - x ^ 3 / 6 + x ^ 5 / 120)),
    asin := fun x => x + x ^ 3 / 6,
    RAND_MAX := 32767,
    rand := fun k => (1103515245 * k + 12345) % 32768 }

/-- A held note on the 8-bit bell, switched on at time 1. -/
def loud_note : note :=
  { id := 0, on_ := 1, off := 0, active := true, channel := some instrument_bell8 }

/-- A registry of 21 identical notes on the 8-bit bell. -/
def loud_registry : List note := List.replicate 21 loud_note

/-- The sequencer of the scenario: tempo 120, one beat, four sub-beats and one channel,
bound to `inst`, whose pattern is `X...`. -/
def seq_x (inst : Option instrument_base) : sequencer :=
  ((sequencer.new 120 1 4).AddInstrument inst).setBeat 0 ['X', '.', '.', '.']

/-- Successive calls of `sequencer::Update`, one per elapsed time of the list: the
returned counts and the sequencer after the last call. -/
def sequencer.Updates (fuel : ℕ) : sequencer → List FTYPE → Option (List Int × sequencer)
  | s, [] => some ([], s)
  | s, t :: ts =>
    match sequencer.Update fuel s t with
    | none => none
    | some (k, s1) =>
      match sequencer.Updates fuel s1 ts with
      | none => none
      | some (ks, s2) => some (k :: ks, s2)

namespace synth

/-- The divisors of the divisions evaluated by the three consecutive `if` statements of
`envelope_adsr::amplitude` for the life time `dLifeTime`, in evaluation order: the attack
time when the first condition holds, the decay time when the second holds. -/
def envelope_adsr.stage_divisors (e : envelope_adsr) (dLifeTime : FTYPE) : List FTYPE :=
  (if dLifeTime ≤ e.dAttackTime then [e.dAttackTime] else [])
    ++ (if dLifeTime > e.dAttackTime ∧ dLifeTime ≤ e.dAttackTime + e.dDecayTime then
          [e.dDecayTime]
        else [])

/-- The divisors of all the divisions evaluated by one call of
`envelope_adsr::amplitude`, in evaluation order; the released branch always ends with
the division by the release time. -/
def envelope_adsr.amplitude_divisors (e : envelope_adsr) (dTime dTimeOn dTimeOff : FTYPE) :
    List FTYPE :=
  if dTimeOn > dTimeOff then e.stage_divisors (dTime - dTimeOn)
  else e.stage_divisors (dTimeOff - dTimeOn) ++ [e.dReleaseTime]

/-- A value of IEEE arithmetic without rounding and without overflow: a finite number,
one of the two infinities, or a NaN.  The sign of a zero is not recorded; a zero divisor
is the positive zero of the envelope parameters. -/
inductive xfloat where
  | fin (q : ℚ)
  | pinf
  | ninf
  | nan
deriving DecidableEq

/-- IEEE negation. -/
def xfloat.neg : xfloat → xfloat
  | .fin a => .fin (-a)
  | .pinf => .ninf
  | .ninf => .pinf
  | .nan => .nan

/-- IEEE addition: opposite infinities add to a NaN. -/
def xfloat.add : xfloat → xfloat → xfloat
  | .nan, _ => .nan
  | _, .nan => .nan
  | .fin a, .fin b => .fin (a + b)
  | .pinf, .ninf => .nan
  | .ninf, .pinf => .nan
  | .pinf, _ => .pinf
  | .ninf, _ => .ninf
  | .fin _, .pinf => .pinf
  | .fin _, .ninf => .ninf

/-- The infinity with the sign of `a` times the sign of `s`, a NaN when `a` is zero. -/
def xfloat.signed_inf (a : ℚ) (s : xfloat) : xfloat :=
  if a = 0 then .nan else if 0 < a then s else s.neg

/-- IEEE multiplication: zero times an infinity is a NaN. -/
def xfloat.mul : xfloat → xfloat → xfloat
  | .nan, _ => .nan
  | _, .nan => .nan
  | .fin a, .fin b => .fin (a * b)
  | .fin a, .pinf => xfloat.signed_inf a .pinf
  | .fin a, .ninf => xfloat.signed_inf a .ninf
  | .pinf, .fin b => xfloat.signed_inf b .pinf
  | .ninf, .fin b => xfloat.signed_inf b .ninf
  | .pinf, .pinf => .pinf
  | .ninf, .ninf => .pinf
  | .pinf, .ninf => .ninf
  | .ninf, .pinf => .ninf

/-- IEEE division: a non-zero number over zero is an infinity, zero over zero and an
infinity over an infinity are NaN. -/
def xfloat.div : xfloat → xfloat → xfloat
  | .nan, _ => .nan
  | _, .nan => .nan
  | .fin a, .fin b => if b = 0 then xfloat.signed_inf a .pinf else .fin (a / b)
  | .fin _, .pinf => .fin 0
  | .fin _, .ninf => .fin 0
  | .pinf, .fin b => if 0 ≤ b then .pinf else .ninf
  | .ninf, .fin b => if 0 ≤ b then .ninf else .pinf
  | .pinf, .pinf => .nan
  | .pinf, .ninf => .nan
  | .ninf, .pinf => .nan
  | .ninf, .ninf => .nan

/-- The IEEE comparison `a <= b`: false as soon as one side is a NaN. -/
def xfloat.le : xfloat → xfloat → Bool
  | .nan, _ => false
  | _, .nan => false
  | .fin a, .fin b => decide (a ≤ b)
  | .ninf, _ => true
  | _, .pinf => true
  | .pinf, _ => false
  | .fin _, .ninf => false

/-- The IEEE comparison `a < b`: false as soon as one side is a NaN. -/
def xfloat.lt : xfloat → xfloat → Bool
  | .nan, _ => false
  | _, .nan => false
  | .fin a, .fin b => decide (a < b)
  | .pinf, _ => false
  | _, .ninf => false
  | .ninf, _ => true
  | .fin _, .pinf => true

/-- The three consecutive `if` statements of `envelope_adsr::amplitude` (see
`envelope_adsr.stage`) with the IEEE results of the divisions by zero. -/
def envelope_adsr.stage_x (e : envelope_adsr) (dLifeTime : FTYPE) (init : xfloat) : xfloat :=
  let a1 :=
    if dLifeTime ≤ e.dAttackTime then
      ((xfloat.fin dLifeTime).div (.fin e.dAttackTime)).mul (.fin e.dStartAmplitude)
    else init
  let a2 :=
    if dLifeTime > e.dAttackTime ∧ dLifeTime ≤ e.dAttackTime + e.dDecayTime then
      (((xfloat.fin (dLifeTime - e.dAttackTime)).div (.fin e.dDecayTime)).mul
        (.fin (e.dSustainAmplitude - e.dStartAmplitude))).add (.fin e.dStartAmplitude)
    else a1
  if dLifeTime > e.dAttackTime + e.dDecayTime then .fin e.dSustainAmplitude else a2

/-- The method `envelope_adsr::amplitude` with the IEEE results of the divisions by zero:
the parameters and the times are finite, the level may be an infinity or a NaN. -/
def envelope_adsr.amplitude_x (e : envelope_adsr) (dTime dTimeOn dTimeOff : FTYPE) : xfloat :=
  let dAmplitude :=
    if dTimeOn > dTimeOff then
      -- Note is on
      e.stage_x (dTime - dTimeOn) (.fin 0)
    else
      -- Note is off
      let dReleaseAmplitude := e.stage_x (dTimeOff - dTimeOn) (.fin 0)
      (((xfloat.fin (dTime - dTimeOff)).div (.fin e.dReleaseTime)).mul
        ((xfloat.fin 0).add dReleaseAmplitude.neg)).add dReleaseAmplitude
  -- Amplitude should not be negative
  if dAmplitude.le (.fin 0.01) then .fin 0 else dAmplitude

end synth

/-- A held note on the bell, switched on at time 1 and not yet released. -/
def held_note : note :=
  { id := 64, on_ := 1, off := 0, active := true, channel := some instrument_bell }

/-- The per-semitone factor written in `scale`. -/
def semitone : FTYPE := 1.0594630943592952645618252949463

/-- The algorithm `find_if` on the registry: the position of the first note satisfying
`p`, `none` for `vecNotes.end()`. -/
def find_if (p : note → Bool) : List note → Option ℕ
  | [] => none
  | n :: rest => if p n then some 0 else (find_if p rest).map (fun i => i + 1)

/-- One iteration of the keyboard loop of `main`, for the key number `k`: `nKeyState` is
the value returned by `GetAsyncKeyState` and `dTimeNow` the playback time; the registry
`vecNotes` is returned updated.  The pointer comparison `item.channel == &instHarm` is
the comparison with the harmonica object. -/
def key_step (k : Int) (nKeyState : Int) (dTimeNow : FTYPE) (vecNotes : List note) :
    List note :=
  -- Check if note already exists in currently playing notes
  match find_if (fun item => item.id == k + 64 && item.channel == some instrument_harmonica)
      vecNotes with
  | none =>
    -- Note not found in vector
    if Int.land nKeyState 0x8000 ≠ 0 then
      -- Key has been pressed so create a new note
      vecNotes ++ [{ note.new with
        id := k + 64, on_ := dTimeNow, active := true, channel := some instrument_harmonica }]
    else vecNotes
  | some noteFound =>
    -- Note exists in vector
    if Int.land nKeyState 0x8000 ≠ 0 then
      -- Key has been pressed again during release phase
      vecNotes.modify
        (fun nf => if nf.off > nf.on_ then { nf with on_ := dTimeNow, active := true } else nf)
        noteFound
    else
      -- Key has been released, so switch off
      vecNotes.modify (fun nf => if nf.off < nf.on_ then { nf with off := dTimeNow } else nf)
        noteFound

/-- A registry of three notes: a released harmonica note for key 0, a drum note and a
held harmonica note for key 2. -/
def key_registry : List note :=
  [{ id := 64, on_ := 1, off := 2, active := true, channel := some instrument_harmonica },
   { id := 64, on_ := 3, off := 0, active := true, channel := some instrument_drumkick },
   { id := 66, on_ := 3, off := 0, active := true, channel := some instrument_harmonica }]

/-- The step reached from the step `c` by one advance, in a pattern of `nTotalBeats`
steps. -/
def next_step (nTotalBeats c : Int) : Int := if c + 1 ≥ nTotalBeats then 0 else c + 1

/-- The step reached from the step `c` by `j` advances. -/
def step_after (nTotalBeats c : Int) : ℕ → Int
  | 0 => c
  | j + 1 => next_step nTotalBeats (step_after nTotalBeats c j)

/-- The notes triggered at a step: one note per channel whose pattern has `X` at that
step, in channel order, with id 64, active, `on = off = 0`, bound to the instrument of
the channel. -/
def triggered (vecChannel : List channel) (step : Int) : List note :=
  (vecChannel.filter (fun ch => wstring_at ch.sBeat step == some 'X')).map
    (fun ch => { id := 64, on_ := 0, off := 0, active := true, channel := ch.instrument })

/-- The notes triggered by `k` sub-beats processed in a row from the state `s`: those of
the step reached after one advance, then after two, up to `k`. -/
def expected_notes (s : sequencer) (k : ℕ) : List note :=
  (List.range k).flatMap
    (fun j => triggered s.vecChannel (step_after s.nTotalBeats s.nCurrentBeat (j + 1)))

/-- A note of the drum kick, switched on at time 1. -/
def kick_note : note :=
  { id := 64, on_ := 1, off := 0, active := true, channel := some instrument_drumkick }

namespace synth

/-- The reads `v.sBeat[nCurrentBeat]` made by the loop `for (auto v : vecChannel)` of
`sequencer::Update`, in order: the channel whose pattern is read and the position read
in it. -/
def sequencer.channel_loop_reads (s : sequencer) : List channel → List (channel × Int)
  | [] => []
  | v :: rest => (v, s.nCurrentBeat) :: s.channel_loop_reads rest

/-- The reads made by one run of the body of the loop `while (fAccumulate >= fBeatTime)`
(see `sequencer.sub_beat`): the counter is advanced and wrapped before the patterns are
read. -/
def sequencer.sub_beat_reads (s : sequencer) : List (channel × Int) :=
  let s1 := { s with fAccumulate := s.fAccumulate - s.fBeatTime }
  let s2 := { s1 with nCurrentBeat := s1.nCurrentBeat + 1 }
  let s3 := if s2.nCurrentBeat ≥ s2.nTotalBeats then { s2 with nCurrentBeat := 0 } else s2
  s3.channel_loop_reads s3.vecChannel

/-- The reads made by the first `fuel` iterations, at most, of the loop
`while (fAccumulate >= fBeatTime)`. -/
def sequencer.while_loop_reads : ℕ → sequencer → List (channel × Int)
  | 0, _ => []
  | fuel + 1, s =>
    if s.fAccumulate ≥ s.fBeatTime then
      s.sub_beat_reads ++ sequencer.while_loop_reads fuel s.sub_beat
    else []

/-- The pattern reads made by `sequencer::Update` within `fuel` iterations of its loop. -/
def sequencer.Update_reads (fuel : ℕ) (s : sequencer) (fElapsedTime : FTYPE) :
    List (channel × Int) :=
  let s1 := { s with vecNotes := [] }
  let s2 := { s1 with fAccumulate := s1.fAccumulate + fElapsedTime }
  sequencer.while_loop_reads fuel s2

end synth

/-- The invariant of the sequencer: the current step is a step of the pattern and every
channel has a pattern of `nTotalBeats` marks. -/
def sequencer_inv (s : sequencer) : Prop :=
  0 ≤ s.nCurrentBeat ∧ s.nCurrentBeat < s.nTotalBeats
    ∧ ∀ ch ∈ s.vecChannel, (ch.sBeat.length : Int) = s.nTotalBeats

namespace synth

/-- The magnitude from which an exact result becomes an infinity under IEEE rounding to
nearest: the largest finite double `(2 - 2 ^ (-52)) * 2 ^ 1023` plus half a unit in its
last place, `2 ^ 1024 - 2 ^ 970`. -/
def DBL_OVERFLOW : ℚ := 2 ^ 1024 - 2 ^ 970

/-- The value a double operation delivers for the exact result `v`, rounding left out: a
finite result at or beyond `DBL_OVERFLOW` is an infinity. -/
def xfloat.range : xfloat → xfloat
  | .fin q =>
    if DBL_OVERFLOW ≤ q then .pinf else if q ≤ -DBL_OVERFLOW then .ninf else .fin q
  | .pinf => .pinf
  | .ninf => .ninf
  | .nan => .nan

/-- The double product `a * b`, with overflow. -/
def xfloat.mul_r (a b : xfloat) : xfloat := (a.mul b).range

/-- The double sum `a + b`, with overflow. -/
def xfloat.add_r (a b : xfloat) : xfloat := (a.add b).range

/-- The library `sin` on a double: the sine of an infinity or of a NaN is a NaN. -/
def Libm.sin_x (m : Libm) : xfloat → xfloat
  | .fin q => .fin (m.sin q)
  | _ => .nan

/-- The library `pow(x, n)` on doubles, rounding left out: an infinity when `x ^ n`
overflows. -/
def pow_x (x : ℚ) (n : Int) : xfloat := (xfloat.fin (x ^ n)).range

/-- The function `w` on doubles, with overflow: `dHertz * 2.0 * PI`. -/
def w_x (m : Libm) (dHertz : xfloat) : xfloat :=
  (dHertz.mul_r (.fin 2)).mul_r (.fin m.PI)

/-- The function `scale` on doubles, with overflow. -/
def scale_x (nNoteID : Int) (_nScaleID : Int) : xfloat :=
  (xfloat.fin 8).mul_r (pow_x 1.0594630943592952645618252949463 nNoteID)

/-- The sine arm (`case OSC_SINE`) of `osc` on doubles, with overflow:
`sin(w(dHertz) * dTime + dLFOAmplitude * dHertz * (sin(w(dLFOHertz) * dTime)))`. -/
def osc_sine_x (m : Libm) (dTime dHertz dLFOHertz dLFOAmplitude : xfloat) : xfloat :=
  m.sin_x (((w_x m dHertz).mul_r dTime).add_r
    ((dLFOAmplitude.mul_r dHertz).mul_r (m.sin_x ((w_x m dLFOHertz).mul_r dTime))))

/-- The sample returned by `instrument_bell::sound` on doubles, with overflow and with
the IEEE results of the divisions by zero; the times of the note and the current time
are finite. -/
def instrument_bell.sound_x (m : Libm) (self : instrument_base) (dTime : FTYPE) (n : note) :
    xfloat :=
  let dAmplitude := self.env.amplitude_x dTime n.on_ n.off
  let dSound :=
    (((xfloat.fin 1.00).mul_r
        (osc_sine_x m (.fin (dTime - n.on_)) (scale_x (n.id + 12) SCALE_DEFAULT)
          (.fin 5.0) (.fin 0.001))).add_r
      ((xfloat.fin 0.50).mul_r
        (osc_sine_x m (.fin (dTime - n.on_)) (scale_x (n.id + 24) SCALE_DEFAULT)
          (.fin 0) (.fin 0)))).add_r
      ((xfloat.fin 0.25).mul_r
        (osc_sine_x m (.fin (dTime - n.on_)) (scale_x (n.id + 36) SCALE_DEFAULT)
          (.fin 0) (.fin 0)))
  (dAmplitude.mul_r dSound).mul_r (.fin self.dVolume)

end synth

/-- A held note on the bell with the note index 20000, switched on at time 1. -/
def high_note : note :=
  { id := 20000, on_ := 1, off := 0, active := true, channel := some instrument_bell }
namespace synth

/-- Rounding to the nearest integer, ties to the even one. -/
def round_half_even (x : ℚ) : ℤ :=
  if x - ⌊x⌋ < 1 / 2 then ⌊x⌋
  else if 1 / 2 < x - ⌊x⌋ then ⌊x⌋ + 1
  else if ⌊x⌋ % 2 = 0 then ⌊x⌋ else ⌊x⌋ + 1

/-- The double nearest to the exact value `q` (53 significant bits, ties to even), as
IEEE arithmetic delivers it for a sum, a difference or a quotient of two doubles; the
range of the exponent is left unbounded. -/
def round_double (q : ℚ) : ℚ :=
  if q = 0 then 0
  else round_half_even (q / 2 ^ (Int.log 2 |q| - 52)) * 2 ^ (Int.log 2 |q| - 52)

/-- The constructor `sequencer::sequencer` in double arithmetic: `fTempo` is a double, so
`(60.0f / fTempo) / (float)nSubBeats` is two double divisions. -/
def sequencer.new_fl (tempo : FTYPE) (beats subbeats : Int) : sequencer :=
  { sequencer.new tempo beats subbeats with
    fBeatTime := round_double (round_double (60 / tempo) / (subbeats : FTYPE)) }

/-- The body of the loop of `sequencer::Update` in double arithmetic: the difference
`fAccumulate -= fBeatTime` is rounded, the rest is `sequencer.sub_beat`. -/
def sequencer.sub_beat_fl (s : sequencer) : sequencer :=
  { s.sub_beat with fAccumulate := round_double (s.fAccumulate - s.fBeatTime) }

/-- The loop `while (fAccumulate >= fBeatTime)` in double arithmetic (see
`sequencer.while_loop`). -/
def sequencer.while_loop_fl : ℕ → sequencer → Option sequencer
  | 0, s => if s.fAccumulate ≥ s.fBeatTime then none else some s
  | fuel + 1, s =>
    if s.fAccumulate ≥ s.fBeatTime then sequencer.while_loop_fl fuel s.sub_beat_fl
    else some s

/-- The method `sequencer::Update` in double arithmetic: the sum
`fAccumulate += fElapsedTime` and the differences of the loop are rounded. -/
def sequencer.Update_fl (fuel : ℕ) (s : sequencer) (fElapsedTime : FTYPE) :
    Option (Int × sequencer) :=
  let s1 := { s with vecNotes := [] }
  let s2 := { s1 with fAccumulate := round_double (s1.fAccumulate + fElapsedTime) }
  (sequencer.while_loop_fl fuel s2).map fun s3 => ((s3.vecNotes.length : Int), s3)

end synth

/-- The sequencer `seq(90.0)` built by `main`, before its channels are added. -/
def seq_main : sequencer := sequencer.new_fl 90 4 4

/-- The sequencer `seq_main` at the step `k` with the accumulator `x`. -/
def seq_main_at (k : Int) (x : FTYPE) : sequencer :=
  { seq_main with fAccumulate := x, nCurrentBeat := k }

/-! ## The render callback -/

theorem safe_remove_eq_filter (f : note → Bool) (l : List note) :
    safe_remove f l = l.filter f := by
  induction l with
  | nil => rfl
  | cons n rest ih =>
    cases h : f n <;> simp [safe_remove, h, ih]

/-- The finished flag an instrument returns does not depend on the state of `rand`. -/
theorem sound_flag_seed (m : Libm) (c : instrument_base) (dTime : FTYPE) (n : note)
    (b : Bool) (seed : ℕ) :
    (c.sound m dTime n b seed).2.1 = (c.sound m dTime n b 0).2.1 := by
  unfold instrument_base.sound
  cases c.kind <;>
    simp [instrument_bell.sound, instrument_bell8.sound, instrument_harmonica.sound,
      instrument_drumkick.sound, instrument_drumsnare.sound, instrument_drumhihat.sound]

theorem reports_finished_seed (m : Libm) (dTime : FTYPE) (n : note) (seed : ℕ) :
    reports_finished m dTime n seed = reports_finished m dTime n 0 := by
  unfold reports_finished
  cases n.channel with
  | none => rfl
  | some c => exact sound_flag_seed m c dTime n false seed

/-- The notes that survive the removal pass of `MakeNoise`, in terms of the registry on
entry. -/
theorem mix_loop_survivors (m : Libm) (dTime : FTYPE) (l : List note) (acc : FTYPE)
    (seed : ℕ) :
    (mix_loop m dTime l acc seed).1.filter (fun item => item.active)
      = l.filter (fun n => n.active && !reports_finished m dTime n 0) := by
  induction l generalizing acc seed with
  | nil => rfl
  | cons n rest ih =>
    have hflag : (match n.channel with
        | some c => c.sound m dTime n false seed
        | none => ((0 : FTYPE), false, seed)).2.1 = reports_finished m dTime n 0 := by
      rw [← reports_finished_seed m dTime n seed]
      unfold reports_finished
      cases n.channel <;> rfl
    simp only [mix_loop, hflag]
    cases hf : reports_finished m dTime n 0 <;> cases ha : n.active <;>
      simp [List.filter_cons, ha, hf, ih]

/-- The sum accumulated by the loop of `MakeNoise` and the state of `rand` it leaves. -/
theorem mix_loop_sum (m : Libm) (dTime : FTYPE) (l : List note) (acc : FTYPE) (seed : ℕ) :
    (mix_loop m dTime l acc seed).2.1 = acc + sum_of_samples m dTime l seed := by
  induction l generalizing acc seed with
  | nil => simp [mix_loop, sum_of_samples]
  | cons n rest ih =>
    simp only [mix_loop, sum_of_samples, note_sample]
    rw [ih]
    cases n.channel <;> simp [add_assoc]

theorem MakeNoise_vecNotes (m : Libm) (nChannel : Int) (dTime : FTYPE) (vecNotes : List note)
    (seed : ℕ) :
    (MakeNoise m nChannel dTime vecNotes seed).vecNotes
      = vecNotes.filter (fun n => n.active && !reports_finished m dTime n 0) := by
  simp only [MakeNoise, safe_remove_eq_filter]
  exact mix_loop_survivors m dTime vecNotes 0 seed

theorem MakeNoise_sublist (m : Libm) (nChannel : Int) (dTime : FTYPE) (vecNotes : List note)
    (seed : ℕ) : (MakeNoise m nChannel dTime vecNotes seed).vecNotes.Sublist vecNotes := by
  rw [MakeNoise_vecNotes]
  exact List.filter_sublist _

theorem render_trace_sublist (m : Libm) (nChannel : Int) (ts : List FTYPE) :
    ∀ (vecNotes : List note) (seed : ℕ),
      ∀ r ∈ render_trace m nChannel ts vecNotes seed, r.Sublist vecNotes := by
  induction ts with
  | nil => intro vecNotes seed r hr; simp [render_trace] at hr
  | cons t ts ih =>
    intro vecNotes seed r hr
    simp only [render_trace, List.mem_cons] at hr
    rcases hr with rfl | hr
    · exact MakeNoise_sublist m nChannel t vecNotes seed
    · exact (ih _ _ r hr).trans (MakeNoise_sublist m nChannel t vecNotes seed)

/-- C2. For every playback time, `MakeNoise` applied to an empty registry returns the
sample 0.0 and leaves the registry empty (the state of `rand` is untouched too). -/
theorem C2_MakeNoise_empty (m : Libm) (nChannel : Int) (dTime : FTYPE) (seed : ℕ) :
    (MakeNoise m nChannel dTime [] seed).sample = 0
      ∧ (MakeNoise m nChannel dTime [] seed).vecNotes = []
      ∧ (MakeNoise m nChannel dTime [] seed).seed = seed := by
  simp [MakeNoise, mix_loop, safe_remove]

/-- C3. After `MakeNoise(time)` the registry is the registry on entry restricted, in
order and with the notes unchanged, to the notes whose `active` flag was true on entry
and whose instrument did not report them finished at that time; whether a note is
reported finished does not depend on the state of `rand`, and a note without instrument
is never reported finished. -/
theorem C3_MakeNoise_registry (m : Libm) (nChannel : Int) (dTime : FTYPE)
    (vecNotes : List note) (seed : ℕ) :
    (MakeNoise m nChannel dTime vecNotes seed).vecNotes
        = vecNotes.filter (fun n => n.active && !reports_finished m dTime n 0)
      ∧ (∀ (n : note) (s : ℕ), reports_finished m dTime n s = reports_finished m dTime n 0)
      ∧ (∀ (n : note) (s : ℕ),
          n.channel = none → reports_finished m dTime n s = false) := by
  refine ⟨MakeNoise_vecNotes m nChannel dTime vecNotes seed,
    fun n s => reports_finished_seed m dTime n s, ?_⟩
  intro n s h
  simp [reports_finished, h]

/-- C4. Along any sequence of render times, every registry left by a call of `MakeNoise`
is a sub-sequence of every earlier registry (the registry on entry included), so a note
absent from one of them is absent from all the later ones. -/
theorem C4_render_never_adds (m : Libm) (nChannel : Int) (ts : List FTYPE)
    (vecNotes : List note) (seed : ℕ) :
    List.Pairwise (fun before after => after.Sublist before ∧ ∀ n, n ∉ before → n ∉ after)
      (vecNotes :: render_trace m nChannel ts vecNotes seed) := by
  induction ts generalizing vecNotes seed with
  | nil => simp [render_trace]
  | cons t ts ih =>
    rw [List.pairwise_cons]
    refine ⟨fun r hr => ?_, ?_⟩
    · have hs := render_trace_sublist m nChannel (t :: ts) vecNotes seed r hr
      exact ⟨hs, fun n hn hmem => hn (hs.subset hmem)⟩
    · simpa [render_trace] using ih (MakeNoise m nChannel t vecNotes seed).vecNotes
        (MakeNoise m nChannel t vecNotes seed).seed

/-- C5. `MakeNoise` returns 0.2 times the sum, over every note of the registry on entry
(whatever its `active` flag), of the sample of its instrument at that time, a note
without instrument adding 0. -/
theorem C5_MakeNoise_sample (m : Libm) (nChannel : Int) (dTime : FTYPE)
    (vecNotes : List note) (seed : ℕ) :
    (MakeNoise m nChannel dTime vecNotes seed).sample
        = 0.2 * sum_of_samples m dTime vecNotes seed
      ∧ (∀ (n : note) (s : ℕ), n.channel = none → (note_sample m dTime n s).1 = 0) := by
  refine ⟨?_, ?_⟩
  · simp only [MakeNoise, mix_loop_sum]
    ring
  · intro n s h
    simp [note_sample, h]

theorem libm_model_sinBounded : libm_model.SinBounded := by
  intro x
  simp [libm_model]

theorem osc_sine (m : Libm) (dTime dHertz dLFOHertz dLFOAmplitude dCustom : FTYPE) (seed : ℕ) :
    osc m dTime dHertz OSC_SINE dLFOHertz dLFOAmplitude dCustom seed
      = (m.sin (w m dHertz * dTime + dLFOAmplitude * dHertz * m.sin (w m dLFOHertz * dTime)),
          seed) := by
  simp [osc]

theorem osc_square (m : Libm) (dTime dHertz dLFOHertz dLFOAmplitude dCustom : FTYPE)
    (seed : ℕ) :
    osc m dTime dHertz OSC_SQUARE dLFOHertz dLFOAmplitude dCustom seed
      = ((if m.sin (w m dHertz * dTime + dLFOAmplitude * dHertz * m.sin (w m dLFOHertz * dTime))
            > 0 then 1 else -1), seed) := by
  simp [osc, OSC_SQUARE, OSC_SINE]

theorem bell8_amplitude_peak : env 1.01 instrument_bell8.env 1 0 = 1 := by
  norm_num [env, instrument_bell8, envelope_adsr.new, envelope_adsr.amplitude,
    envelope_adsr.stage]

theorem bell8_sound_loud (m : Libm) (seed : ℕ) :
    instrument_base.sound m instrument_bell8 1.01 loud_note false seed
      = (1 * (1.00 * (if m.sin (w m (scale 0 SCALE_DEFAULT) * (1.01 - 1)
              + 0.001 * scale 0 SCALE_DEFAULT * m.sin (w m 5.0 * (1.01 - 1))) > 0
              then 1 else -1)
            + 0.50 * m.sin (w m (scale (0 + 12) SCALE_DEFAULT) * (1.01 - 1)
              + 0 * scale (0 + 12) SCALE_DEFAULT * m.sin (w m 0 * (1.01 - 1)))
            + 0.25 * m.sin (w m (scale (0 + 24) SCALE_DEFAULT) * (1.01 - 1)
              + 0 * scale (0 + 24) SCALE_DEFAULT * m.sin (w m 0 * (1.01 - 1))))
          * instrument_bell8.dVolume, false, seed) := by
  have hk : instrument_bell8.kind = instrument_kind.bell8 := rfl
  simp only [instrument_base.sound, hk, instrument_bell8.sound, loud_note, osc_sine,
    osc_square, bell8_amplitude_peak]
  norm_num

theorem bell8_mix_lower (q s2 s3 : FTYPE) (hq : q = 1 ∨ q = -1)
    (h2 : -1 ≤ s2 ∧ s2 ≤ 1) (h3 : -1 ≤ s3 ∧ s3 ≤ 1) :
    1 / 4 ≤ |1 * (1.00 * q + 0.50 * s2 + 0.25 * s3) * 1| := by
  obtain ⟨h2a, h2b⟩ := h2
  obtain ⟨h3a, h3b⟩ := h3
  rcases hq with rfl | rfl
  · rw [abs_of_nonneg (by norm_num; linarith)]
    norm_num
    linarith
  · rw [abs_of_nonpos (by norm_num; linarith)]
    norm_num
    linarith

theorem loud_note_sample (m : Libm) (hm : m.SinBounded) :
    ∃ v : FTYPE, 1 / 4 ≤ |v| ∧ ∀ seed, note_sample m 1.01 loud_note seed = (v, seed) := by
  have h : loud_note.channel = some instrument_bell8 := rfl
  refine ⟨(note_sample m 1.01 loud_note 0).1, ?_, ?_⟩
  · simp only [note_sample, h, bell8_sound_loud]
    have hv : instrument_bell8.dVolume = 1 := by norm_num [instrument_bell8]
    rw [hv]
    exact bell8_mix_lower _ _ _ (by split_ifs <;> simp) (hm _) (hm _)
  · intro seed
    simp only [note_sample, h, bell8_sound_loud]

theorem sum_of_samples_replicate (m : Libm) (dTime : FTYPE) (n : note) (v : FTYPE)
    (h : ∀ seed, note_sample m dTime n seed = (v, seed)) (k seed : ℕ) :
    sum_of_samples m dTime (List.replicate k n) seed = k * v := by
  induction k with
  | zero => simp [sum_of_samples]
  | succ k ih =>
    simp only [List.replicate_succ, sum_of_samples, h, ih]
    push_cast
    ring

/-- C1 (failing input). On a registry of 21 identical held notes of the 8-bit bell,
rendered at the end of their attack stage, the sample returned by `MakeNoise` has
magnitude above 1 whatever values in `[-1, 1]` the library sine takes: the square
oscillator adds exactly 1 or -1 per note and the two sine partials at most 0.75. -/
theorem C1_MakeNoise_exceeds_unit (m : Libm) (hm : m.SinBounded) (nChannel : Int)
    (seed : ℕ) : 1 < |(MakeNoise m nChannel 1.01 loud_registry seed).sample| := by
  obtain ⟨v, hv, hs⟩ := loud_note_sample m hm
  have hsum := sum_of_samples_replicate m 1.01 loud_note v hs 21 seed
  have h5 : (MakeNoise m nChannel 1.01 loud_registry seed).sample
      = 0.2 * sum_of_samples m 1.01 loud_registry seed := by
    simp only [MakeNoise, mix_loop_sum]
    ring
  rw [h5, loud_registry, hsum, abs_mul, abs_mul]
  have h1 : |(0.2 : FTYPE)| = 1 / 5 := by rw [abs_of_nonneg] <;> norm_num
  have h2 : |((21 : ℕ) : FTYPE)| = 21 := by simp
  rw [h1, h2]
  linarith

theorem C1_MakeNoise_exceeds_unit_witness :
    libm_model.SinBounded ∧ 1 < |(MakeNoise libm_model 0 1.01 loud_registry 0).sample| :=
  ⟨libm_model_sinBounded, C1_MakeNoise_exceeds_unit libm_model libm_model_sinBounded 0 0⟩

/-! ## The sequencer -/

theorem dot_ne_X : ¬ ('.' = 'X') := by decide

theorem while_loop_exit (fuel : ℕ) (s : sequencer) (h : s.fAccumulate < s.fBeatTime) :
    sequencer.while_loop fuel s = some s := by
  cases fuel <;> simp [sequencer.while_loop, not_le.mpr h]


theorem Update_single (fuel : ℕ) (s : sequencer) (e : FTYPE)
    (h1 : s.fBeatTime ≤ s.fAccumulate + e)
    (h2 : s.fAccumulate + e - s.fBeatTime < s.fBeatTime) :
    sequencer.Update (fuel + 1) s e
      = some ((({ s with vecNotes := [], fAccumulate := s.fAccumulate + e } :
            sequencer).sub_beat.vecNotes.length : Int),
          ({ s with vecNotes := [], fAccumulate := s.fAccumulate + e } : sequencer).sub_beat) := by
  simp only [sequencer.Update, sequencer.while_loop]
  rw [if_pos (by simpa using h1), while_loop_exit _ _ (by
    simp only [sequencer.sub_beat]
    split_ifs <;> simpa using h2)]
  rfl

theorem seq_x_fBeatTime (inst : Option instrument_base) : (seq_x inst).fBeatTime = 0.125 := by
  norm_num [seq_x, sequencer.new, sequencer.AddInstrument, sequencer.setBeat]

theorem seq_x_fAccumulate (inst : Option instrument_base) : (seq_x inst).fAccumulate = 0 := by
  norm_num [seq_x, sequencer.new, sequencer.AddInstrument, sequencer.setBeat]

/-- C6 (counterexample). On the sequencer of the scenario (pattern `X...`, tempo 120, one
beat, four sub-beats), no run of `Update(0.125)` from the initial state returns 1: the
call returns 0. -/
theorem C6_first_update_no_trigger : ¬ ∃ (fuel : ℕ) (s : sequencer),
    sequencer.Update fuel (seq_x (some instrument_drumkick)) 0.125 = some (1, s) := by
  rintro ⟨fuel, s, h⟩
  cases fuel with
  | zero =>
    have h0 : sequencer.Update 0 (seq_x (some instrument_drumkick)) 0.125 = none := by
      norm_num [sequencer.Update, sequencer.while_loop, seq_x_fBeatTime, seq_x_fAccumulate]
    rw [h0] at h
    cases h
  | succ fuel =>
    rw [Update_single _ _ _ (by norm_num [seq_x_fBeatTime, seq_x_fAccumulate])
      (by norm_num [seq_x_fBeatTime, seq_x_fAccumulate])] at h
    norm_num [seq_x, sequencer.new, sequencer.AddInstrument, sequencer.setBeat,
      sequencer.sub_beat, sequencer.channel_loop, wstring_at, List.modify, dot_ne_X] at h

/-- C6 (amended). On the sequencer of the scenario, `Update(0.125)` from the initial
state returns 0 and moves the current step from 0 to 1, the pattern being read at the
step reached after the advance; of four such calls in a row the first three return 0 and
the fourth, which wraps the step to 0, returns 1 and leaves exactly one note, with id 64,
active, bound to the instrument of the channel. -/
theorem C6_trigger_after_wrap (inst : Option instrument_base) (fuel : ℕ) :
    sequencer.Update (fuel + 1) (seq_x inst) 0.125
        = some (0, { seq_x inst with nCurrentBeat := 1 })
      ∧ sequencer.Updates (fuel + 1) (seq_x inst) [0.125, 0.125, 0.125, 0.125]
        = some ([0, 0, 0, 1], { seq_x inst with
            nCurrentBeat := 0,
            vecNotes := [{ id := 64, on_ := 0, off := 0, active := true, channel := inst }] }) := by
  have h2 : Int.toNat 2 = 2 := rfl
  have h3 : Int.toNat 3 = 3 := rfl
  constructor
  · rw [Update_single _ _ _ (by norm_num [seq_x_fBeatTime, seq_x_fAccumulate])
      (by norm_num [seq_x_fBeatTime, seq_x_fAccumulate])]
    norm_num [seq_x, sequencer.new, sequencer.AddInstrument, sequencer.setBeat,
      sequencer.sub_beat, sequencer.channel_loop, wstring_at, List.modify, dot_ne_X]
  · simp only [sequencer.Updates]
    rw [Update_single _ _ _ (by norm_num [seq_x_fBeatTime, seq_x_fAccumulate])
      (by norm_num [seq_x_fBeatTime, seq_x_fAccumulate])]
    simp only []
    rw [Update_single _ _ _
      (by norm_num [seq_x, sequencer.new, sequencer.AddInstrument, sequencer.setBeat,
        sequencer.sub_beat])
      (by norm_num [seq_x, sequencer.new, sequencer.AddInstrument, sequencer.setBeat,
        sequencer.sub_beat])]
    simp only []
    rw [Update_single _ _ _
      (by norm_num [seq_x, sequencer.new, sequencer.AddInstrument, sequencer.setBeat,
        sequencer.sub_beat])
      (by norm_num [seq_x, sequencer.new, sequencer.AddInstrument, sequencer.setBeat,
        sequencer.sub_beat])]
    simp only []
    rw [Update_single _ _ _
      (by norm_num [seq_x, sequencer.new, sequencer.AddInstrument, sequencer.setBeat,
        sequencer.sub_beat])
      (by norm_num [seq_x, sequencer.new, sequencer.AddInstrument, sequencer.setBeat,
        sequencer.sub_beat])]
    norm_num [seq_x, sequencer.new, sequencer.AddInstrument, sequencer.setBeat,
      sequencer.sub_beat, sequencer.channel_loop, wstring_at, List.modify, dot_ne_X, h2, h3,
      note.new]

/-! ## The ADSR envelope -/

theorem stage_attack (e : envelope_adsr) (life init : FTYPE) (hd : 0 ≤ e.dDecayTime)
    (h : life ≤ e.dAttackTime) :
    e.stage life init = (life / e.dAttackTime) * e.dStartAmplitude := by
  have h1 : ¬ (life > e.dAttackTime) := not_lt.mpr h
  have h2 : ¬ (life > e.dAttackTime + e.dDecayTime) := not_lt.mpr (by linarith)
  simp [envelope_adsr.stage, h, h1, h2]

theorem stage_decay (e : envelope_adsr) (life init : FTYPE) (h1 : e.dAttackTime < life)
    (h2 : life ≤ e.dAttackTime + e.dDecayTime) :
    e.stage life init
      = ((life - e.dAttackTime) / e.dDecayTime) * (e.dSustainAmplitude - e.dStartAmplitude)
          + e.dStartAmplitude := by
  have h3 : ¬ (life > e.dAttackTime + e.dDecayTime) := not_lt.mpr h2
  simp [envelope_adsr.stage, h1, h2, h3]

theorem stage_sustain (e : envelope_adsr) (life init : FTYPE)
    (h : e.dAttackTime + e.dDecayTime < life) :
    e.stage life init = e.dSustainAmplitude := by
  simp [envelope_adsr.stage, h]

theorem snap_mono (x y : FTYPE) (h : x ≤ y) :
    (if x ≤ 0.01 then 0 else x) ≤ (if y ≤ 0.01 then 0 else y) := by
  split_ifs with hx hy hy
  · exact le_refl _
  · norm_num at hy; linarith
  · linarith
  · exact h

theorem snap_nonneg (x : FTYPE) : 0 ≤ (if x ≤ 0.01 then 0 else x) := by
  split_ifs with hx
  · exact le_refl _
  · norm_num at hx; linarith

theorem snap_le (x b : FTYPE) (hb : 0 ≤ b) (h : x ≤ b) :
    (if x ≤ 0.01 then 0 else x) ≤ b := by
  split_ifs <;> assumption

theorem stage_nonneg (e : envelope_adsr) (life : FTYPE) (ha : 0 < e.dAttackTime)
    (hd : 0 < e.dDecayTime) (hs : 0 ≤ e.dSustainAmplitude) (hst : 0 ≤ e.dStartAmplitude)
    (hl : 0 ≤ life) : 0 ≤ e.stage life 0 := by
  rcases le_or_lt life e.dAttackTime with h1 | h1
  · rw [stage_attack e life 0 hd.le h1]
    exact mul_nonneg (div_nonneg hl ha.le) hst
  · rcases le_or_lt life (e.dAttackTime + e.dDecayTime) with h2 | h2
    · rw [stage_decay e life 0 h1 h2]
      have hf0 : 0 ≤ (life - e.dAttackTime) / e.dDecayTime := div_nonneg (by linarith) hd.le
      have hf1 : (life - e.dAttackTime) / e.dDecayTime ≤ 1 := by
        rw [div_le_one hd]; linarith
      nlinarith
    · rw [stage_sustain e life 0 h2]
      exact hs

theorem stage_le_one (e : envelope_adsr) (life : FTYPE) (ha : 0 < e.dAttackTime)
    (hd : 0 < e.dDecayTime) (hs : e.dSustainAmplitude ≤ 1) (hst0 : 0 ≤ e.dStartAmplitude)
    (hst : e.dStartAmplitude ≤ 1) : e.stage life 0 ≤ 1 := by
  rcases le_or_lt life e.dAttackTime with h1 | h1
  · rw [stage_attack e life 0 hd.le h1]
    have hf1 : life / e.dAttackTime ≤ 1 := by rw [div_le_one ha]; exact h1
    nlinarith
  · rcases le_or_lt life (e.dAttackTime + e.dDecayTime) with h2 | h2
    · rw [stage_decay e life 0 h1 h2]
      have hf0 : 0 ≤ (life - e.dAttackTime) / e.dDecayTime := div_nonneg (by linarith) hd.le
      have hf1 : (life - e.dAttackTime) / e.dDecayTime ≤ 1 := by
        rw [div_le_one hd]; linarith
      nlinarith
    · rw [stage_sustain e life 0 h2]
      exact hs

theorem amplitude_held (e : envelope_adsr) (dTime dTimeOn dTimeOff : FTYPE)
    (h : dTimeOff < dTimeOn) :
    e.amplitude dTime dTimeOn dTimeOff
      = if e.stage (dTime - dTimeOn) 0 ≤ 0.01 then 0 else e.stage (dTime - dTimeOn) 0 := by
  simp [envelope_adsr.amplitude, h]

theorem amplitude_released (e : envelope_adsr) (dTime dTimeOn dTimeOff : FTYPE)
    (h : dTimeOn ≤ dTimeOff) :
    e.amplitude dTime dTimeOn dTimeOff
      = if ((dTime - dTimeOff) / e.dReleaseTime) * (0 - e.stage (dTimeOff - dTimeOn) 0)
            + e.stage (dTimeOff - dTimeOn) 0 ≤ 0.01 then 0
        else ((dTime - dTimeOff) / e.dReleaseTime) * (0 - e.stage (dTimeOff - dTimeOn) 0)
            + e.stage (dTimeOff - dTimeOn) 0 := by
  simp [envelope_adsr.amplitude, not_lt.mpr h]

/-- C7 (counterexample). The default envelope (all stage times positive, sustain and
start level 1) evaluated at time 0 for a note switched on at 0 and released at 1 has
amplitude 6, outside `[0, 1]`. -/
theorem C7_amplitude_above_one_before_release :
    0 < envelope_adsr.new.dAttackTime ∧ 0 < envelope_adsr.new.dDecayTime
      ∧ 0 < envelope_adsr.new.dReleaseTime
      ∧ 0 ≤ envelope_adsr.new.dSustainAmplitude ∧ envelope_adsr.new.dSustainAmplitude ≤ 1
      ∧ 0 ≤ envelope_adsr.new.dStartAmplitude ∧ envelope_adsr.new.dStartAmplitude ≤ 1
      ∧ envelope_adsr.new.amplitude 0 0 1 = 6
      ∧ ¬ (0 ≤ envelope_adsr.new.amplitude 0 0 1
          ∧ envelope_adsr.new.amplitude 0 0 1 ≤ 1) := by
  have h : envelope_adsr.new.amplitude 0 0 1 = 6 := by
    norm_num [envelope_adsr.new, envelope_adsr.amplitude, envelope_adsr.stage]
  rw [h]
  norm_num [envelope_adsr.new]

/-- C7 (amended). For an envelope with positive attack, decay and release times and
sustain and start levels in `[0, 1]`, the amplitude lies in `[0, 1]` at every time of a
held note and at every time not before the release time of a released note. -/
theorem C7_amplitude_unit_interval (e : envelope_adsr) (dTime dTimeOn dTimeOff : FTYPE)
    (ha : 0 < e.dAttackTime) (hd : 0 < e.dDecayTime) (hr : 0 < e.dReleaseTime)
    (hs0 : 0 ≤ e.dSustainAmplitude) (hs1 : e.dSustainAmplitude ≤ 1)
    (hst0 : 0 ≤ e.dStartAmplitude) (hst1 : e.dStartAmplitude ≤ 1)
    (ht : dTimeOn ≤ dTimeOff → dTimeOff ≤ dTime) :
    0 ≤ e.amplitude dTime dTimeOn dTimeOff ∧ e.amplitude dTime dTimeOn dTimeOff ≤ 1 := by
  rcases lt_or_le dTimeOff dTimeOn with h | h
  · rw [amplitude_held e dTime dTimeOn dTimeOff h]
    exact ⟨snap_nonneg _, snap_le _ _ zero_le_one (stage_le_one e _ ha hd hs1 hst0 hst1)⟩
  · rw [amplitude_released e dTime dTimeOn dTimeOff h]
    refine ⟨snap_nonneg _, snap_le _ _ zero_le_one ?_⟩
    have hR0 := stage_nonneg e (dTimeOff - dTimeOn) ha hd hs0 hst0 (by linarith)
    have hR1 := stage_le_one e (dTimeOff - dTimeOn) ha hd hs1 hst0 hst1
    have hq : 0 ≤ (dTime - dTimeOff) / e.dReleaseTime :=
      div_nonneg (by linarith [ht h]) hr.le
    nlinarith

/-- C8. For an envelope with positive attack, decay and release times and non-negative
start and sustain levels, the amplitude of a released note (`on ≤ off`) is exactly 0
whenever `time - off ≥ release time`. -/
theorem C8_amplitude_zero_after_release (e : envelope_adsr) (dTime dTimeOn dTimeOff : FTYPE)
    (ha : 0 < e.dAttackTime) (hd : 0 < e.dDecayTime) (hr : 0 < e.dReleaseTime)
    (hs0 : 0 ≤ e.dSustainAmplitude) (hst0 : 0 ≤ e.dStartAmplitude)
    (hrel : dTimeOn ≤ dTimeOff) (ht : dTime - dTimeOff ≥ e.dReleaseTime) :
    e.amplitude dTime dTimeOn dTimeOff = 0 := by
  rw [amplitude_released e dTime dTimeOn dTimeOff hrel]
  have hR0 := stage_nonneg e (dTimeOff - dTimeOn) ha hd hs0 hst0 (by linarith)
  have hq : 1 ≤ (dTime - dTimeOff) / e.dReleaseTime := by
    rw [one_le_div hr]; exact ht
  rw [if_pos]
  norm_num
  nlinarith

/-- C9. For an envelope with positive stage times and `0 ≤ sustain ≤ start`, and times
`t1 ≤ t2`: a held note has `amplitude t1 ≤ amplitude t2` when both times lie in the attack
stage and `amplitude t2 ≤ amplitude t1` when both lie in the decay stage; a released note
has `amplitude t2 ≤ amplitude t1`. -/
theorem C9_amplitude_monotone (e : envelope_adsr) (dTimeOn dTimeOff t1 t2 : FTYPE)
    (ha : 0 < e.dAttackTime) (hd : 0 < e.dDecayTime) (hr : 0 < e.dReleaseTime)
    (hs0 : 0 ≤ e.dSustainAmplitude) (hss : e.dSustainAmplitude ≤ e.dStartAmplitude)
    (h12 : t1 ≤ t2) :
    (dTimeOn > dTimeOff → t2 - dTimeOn ≤ e.dAttackTime →
        e.amplitude t1 dTimeOn dTimeOff ≤ e.amplitude t2 dTimeOn dTimeOff)
      ∧ (dTimeOn > dTimeOff → e.dAttackTime < t1 - dTimeOn →
          t2 - dTimeOn ≤ e.dAttackTime + e.dDecayTime →
          e.amplitude t2 dTimeOn dTimeOff ≤ e.amplitude t1 dTimeOn dTimeOff)
      ∧ (dTimeOn ≤ dTimeOff →
          e.amplitude t2 dTimeOn dTimeOff ≤ e.amplitude t1 dTimeOn dTimeOff) := by
  have hst0 : 0 ≤ e.dStartAmplitude := le_trans hs0 hss
  refine ⟨fun hheld hatt => ?_, fun hheld hdec1 hdec2 => ?_, fun hrel => ?_⟩
  · rw [amplitude_held e t1 dTimeOn dTimeOff hheld, amplitude_held e t2 dTimeOn dTimeOff hheld]
    apply snap_mono
    rw [stage_attack e _ 0 hd.le hatt, stage_attack e _ 0 hd.le (by linarith)]
    apply mul_le_mul_of_nonneg_right _ hst0
    exact div_le_div_of_nonneg_right (by linarith) ha.le
  · rw [amplitude_held e t1 dTimeOn dTimeOff hheld, amplitude_held e t2 dTimeOn dTimeOff hheld]
    apply snap_mono
    rw [stage_decay e _ 0 hdec1 (by linarith), stage_decay e _ 0 (by linarith) hdec2]
    have hq : (t1 - dTimeOn - e.dAttackTime) / e.dDecayTime
        ≤ (t2 - dTimeOn - e.dAttackTime) / e.dDecayTime :=
      div_le_div_of_nonneg_right (by linarith) hd.le
    nlinarith
  · rw [amplitude_released e t1 dTimeOn dTimeOff hrel,
      amplitude_released e t2 dTimeOn dTimeOff hrel]
    apply snap_mono
    have hR0 := stage_nonneg e (dTimeOff - dTimeOn) ha hd hs0 hst0 (by linarith)
    have hq : (t1 - dTimeOff) / e.dReleaseTime ≤ (t2 - dTimeOff) / e.dReleaseTime :=
      div_le_div_of_nonneg_right (by linarith) hr.le
    nlinarith

theorem C9_amplitude_monotone_witness :
    envelope_adsr.new.amplitude 0 0 (-1) ≤ envelope_adsr.new.amplitude 0.05 0 (-1)
      ∧ envelope_adsr.new.amplitude 0.05 0 0 ≤ envelope_adsr.new.amplitude 0 0 0 :=
  have h := C9_amplitude_monotone envelope_adsr.new 0 (-1) 0 0.05
    (by norm_num [envelope_adsr.new]) (by norm_num [envelope_adsr.new])
    (by norm_num [envelope_adsr.new]) (by norm_num [envelope_adsr.new])
    (by norm_num [envelope_adsr.new]) (by norm_num)
  have h2 := C9_amplitude_monotone envelope_adsr.new 0 0 0 0.05
    (by norm_num [envelope_adsr.new]) (by norm_num [envelope_adsr.new])
    (by norm_num [envelope_adsr.new]) (by norm_num [envelope_adsr.new])
    (by norm_num [envelope_adsr.new]) (by norm_num)
  ⟨h.1 (by norm_num) (by norm_num [envelope_adsr.new]), h2.2.2 (by norm_num)⟩

/-- C10 (counterexample). For the default envelope and a note with `on = off = 0`, the
amplitude at time 0.1 is 0 whereas a note switched on at 0 and not yet released has
amplitude 1 at that time. -/
theorem C10_equal_times_not_held :
    envelope_adsr.new.amplitude 0.1 0 0 = 0 ∧ envelope_adsr.new.amplitude 0.1 0 (-1) = 1
      ∧ ¬ (envelope_adsr.new.amplitude 0.1 0 0 = envelope_adsr.new.amplitude 0.1 0 (-1)) := by
  have h0 : envelope_adsr.new.amplitude 0.1 0 0 = 0 := by
    norm_num [envelope_adsr.new, envelope_adsr.amplitude, envelope_adsr.stage]
  have h1 : envelope_adsr.new.amplitude 0.1 0 (-1) = 1 := by
    norm_num [envelope_adsr.new, envelope_adsr.amplitude, envelope_adsr.stage]
  rw [h0, h1]
  norm_num

/-- C10 (amended). When `off` equals `on` the envelope takes the released branch (the
held test is the strict `on > off`): for every envelope with positive stage times, every
`t0` and every time, `amplitude(time, t0, t0)` is 0. -/
theorem C10_amplitude_on_eq_off (e : envelope_adsr) (dTime t0 : FTYPE)
    (ha : 0 < e.dAttackTime) (hd : 0 < e.dDecayTime) (_hr : 0 < e.dReleaseTime) :
    e.amplitude dTime t0 t0 = 0 := by
  rw [amplitude_released e dTime t0 t0 (le_refl _), sub_self,
    stage_attack e 0 0 hd.le ha.le]
  norm_num

theorem C7_amplitude_unit_interval_witness :
    0 ≤ envelope_adsr.new.amplitude 1.1 0 1 ∧ envelope_adsr.new.amplitude 1.1 0 1 ≤ 1 :=
  C7_amplitude_unit_interval envelope_adsr.new 1.1 0 1
    (by norm_num [envelope_adsr.new]) (by norm_num [envelope_adsr.new])
    (by norm_num [envelope_adsr.new]) (by norm_num [envelope_adsr.new])
    (by norm_num [envelope_adsr.new]) (by norm_num [envelope_adsr.new])
    (by norm_num [envelope_adsr.new]) (by norm_num)

theorem C8_amplitude_zero_after_release_witness :
    envelope_adsr.new.amplitude 1.2 0 1 = 0 :=
  C8_amplitude_zero_after_release envelope_adsr.new 1.2 0 1
    (by norm_num [envelope_adsr.new]) (by norm_num [envelope_adsr.new])
    (by norm_num [envelope_adsr.new]) (by norm_num [envelope_adsr.new])
    (by norm_num [envelope_adsr.new]) (by norm_num) (by norm_num [envelope_adsr.new])

theorem C10_amplitude_on_eq_off_witness :
    envelope_adsr.new.amplitude 0.1 0 0 = 0 :=
  C10_amplitude_on_eq_off envelope_adsr.new 0.1 0
    (by norm_num [envelope_adsr.new]) (by norm_num [envelope_adsr.new])
    (by norm_num [envelope_adsr.new])

/-! ## Divisions by zero in the envelope -/

theorem xfloat_snap (x : FTYPE) :
    (if (xfloat.fin x).le (.fin 0.01) then xfloat.fin 0 else .fin x)
      = .fin (if x ≤ 0.01 then 0 else x) := by
  simp only [xfloat.le, decide_eq_true_eq]
  split_ifs <;> rfl

theorem stage_x_eq (e : envelope_adsr) (life init : FTYPE)
    (h : ∀ d ∈ e.stage_divisors life, d ≠ 0) :
    e.stage_x life (.fin init) = .fin (e.stage life init) := by
  unfold envelope_adsr.stage_x envelope_adsr.stage
  unfold envelope_adsr.stage_divisors at h
  by_cases h1 : life ≤ e.dAttackTime
  · have ha : e.dAttackTime ≠ 0 := h _ (by simp [h1])
    have h2 : ¬ (life > e.dAttackTime) := not_lt.mpr h1
    simp only [h1, h2, ha, xfloat.div, xfloat.mul, if_true, if_false, false_and]
    split_ifs <;> rfl
  · by_cases h2 : life ≤ e.dAttackTime + e.dDecayTime
    · have h1' : life > e.dAttackTime := not_le.mp h1
      have hd : e.dDecayTime ≠ 0 := h _ (by simp [h1, h1', h2])
      simp [h1, h1', h2, not_lt.mpr h2, hd, xfloat.div, xfloat.mul, xfloat.add]
    · have h1' : life > e.dAttackTime := not_le.mp h1
      simp [h1, h1', h2, not_le.mp h2]

theorem amplitude_x_eq (e : envelope_adsr) (dTime dTimeOn dTimeOff : FTYPE)
    (h : ∀ d ∈ e.amplitude_divisors dTime dTimeOn dTimeOff, d ≠ 0) :
    e.amplitude_x dTime dTimeOn dTimeOff = .fin (e.amplitude dTime dTimeOn dTimeOff) := by
  unfold envelope_adsr.amplitude_x envelope_adsr.amplitude
  unfold envelope_adsr.amplitude_divisors at h
  by_cases hh : dTimeOn > dTimeOff
  · simp only [hh, if_true] at h ⊢
    rw [stage_x_eq e _ 0 h]
    exact xfloat_snap _
  · simp only [hh, if_false] at h ⊢
    have hs : ∀ d ∈ e.stage_divisors (dTimeOff - dTimeOn), d ≠ 0 :=
      fun d hd => h d (List.mem_append_left _ hd)
    have hr : e.dReleaseTime ≠ 0 := h _ (by simp)
    rw [stage_x_eq e _ 0 hs]
    simp only [xfloat.div, xfloat.mul, xfloat.add, xfloat.neg, hr, if_false]
    rw [show (0 : ℚ) + -e.stage (dTimeOff - dTimeOn) 0 = 0 - e.stage (dTimeOff - dTimeOn) 0
      by ring]
    exact xfloat_snap _

theorem xfloat_snap_cases (v : xfloat) :
    (if v.le (.fin 0.01) then xfloat.fin 0 else v) = .fin 0
      ∨ (xfloat.fin 0.01).lt (if v.le (.fin 0.01) then xfloat.fin 0 else v) = true
      ∨ (if v.le (.fin 0.01) then xfloat.fin 0 else v) = .nan := by
  cases v with
  | fin x =>
    by_cases hx : x ≤ 0.01
    · left; simp [xfloat.le, hx]
    · right; left
      simp only [xfloat.le, hx, decide_False, Bool.false_eq_true, if_false, xfloat.lt,
        decide_eq_true_eq]
      exact not_le.mp hx
  | pinf => right; left; simp [xfloat.le, xfloat.lt]
  | ninf => left; simp [xfloat.le]
  | nan => right; right; simp [xfloat.le]

theorem mem_stage_divisors (e : envelope_adsr) (life d : FTYPE)
    (hd : d ∈ e.stage_divisors life) : d = e.dAttackTime ∨ d = e.dDecayTime := by
  unfold envelope_adsr.stage_divisors at hd
  rw [List.mem_append] at hd
  rcases hd with h | h
  · split_ifs at h
    · left; simpa using h
    · simp at h
  · split_ifs at h
    · right; simpa using h
    · simp at h

theorem mem_amplitude_divisors (e : envelope_adsr) (dTime dTimeOn dTimeOff d : FTYPE)
    (hd : d ∈ e.amplitude_divisors dTime dTimeOn dTimeOff) :
    d = e.dAttackTime ∨ d = e.dDecayTime ∨ d = e.dReleaseTime := by
  unfold envelope_adsr.amplitude_divisors at hd
  split_ifs at hd
  · rcases mem_stage_divisors e _ d hd with h | h
    · exact Or.inl h
    · exact Or.inr (Or.inl h)
  · rw [List.mem_append] at hd
    rcases hd with h | h
    · rcases mem_stage_divisors e _ d h with h | h
      · exact Or.inl h
      · exact Or.inr (Or.inl h)
    · exact Or.inr (Or.inr (by simpa using h))

/-- An envelope whose three stage times are non-zero never divides by zero. -/
theorem amplitude_divisors_ne_zero (e : envelope_adsr) (dTime dTimeOn dTimeOff : FTYPE)
    (ha : e.dAttackTime ≠ 0) (hd : e.dDecayTime ≠ 0) (hr : e.dReleaseTime ≠ 0) :
    ∀ d ∈ e.amplitude_divisors dTime dTimeOn dTimeOff, d ≠ 0 := by
  intro d hmem
  rcases mem_amplitude_divisors e _ _ _ d hmem with h | h | h <;> rw [h] <;> assumption

theorem bell_divisors (dTime dTimeOn dTimeOff : FTYPE) :
    ∀ d ∈ instrument_bell.env.amplitude_divisors dTime dTimeOn dTimeOff, d ≠ 0 :=
  amplitude_divisors_ne_zero _ _ _ _ (by norm_num [instrument_bell, envelope_adsr.new])
    (by norm_num [instrument_bell, envelope_adsr.new])
    (by norm_num [instrument_bell, envelope_adsr.new])

theorem bell8_divisors (dTime dTimeOn dTimeOff : FTYPE) :
    ∀ d ∈ instrument_bell8.env.amplitude_divisors dTime dTimeOn dTimeOff, d ≠ 0 :=
  amplitude_divisors_ne_zero _ _ _ _ (by norm_num [instrument_bell8, envelope_adsr.new])
    (by norm_num [instrument_bell8, envelope_adsr.new])
    (by norm_num [instrument_bell8, envelope_adsr.new])

theorem zero_mem_stage_divisors (e : envelope_adsr) (life : FTYPE) (hd : e.dDecayTime ≠ 0) :
    (0 : FTYPE) ∈ e.stage_divisors life ↔ e.dAttackTime = 0 ∧ life ≤ e.dAttackTime := by
  unfold envelope_adsr.stage_divisors
  rw [List.mem_append]
  constructor
  · rintro (h | h)
    · split_ifs at h with h1
      · exact ⟨(by simpa using h : (0 : FTYPE) = e.dAttackTime).symm, h1⟩
      · simp at h
    · split_ifs at h
      · exact absurd (by simpa using h : (0 : FTYPE) = e.dDecayTime).symm hd
      · simp at h
  · rintro ⟨h0, h1⟩
    left
    rw [if_pos h1, h0]
    simp

theorem zero_mem_amplitude_divisors (e : envelope_adsr) (dTime dTimeOn dTimeOff : FTYPE)
    (hd : e.dDecayTime ≠ 0) :
    (0 : FTYPE) ∈ e.amplitude_divisors dTime dTimeOn dTimeOff
      ↔ (dTimeOn > dTimeOff ∧ e.dAttackTime = 0 ∧ dTime - dTimeOn ≤ e.dAttackTime)
        ∨ (dTimeOn ≤ dTimeOff
            ∧ ((e.dAttackTime = 0 ∧ dTimeOff - dTimeOn ≤ e.dAttackTime)
              ∨ e.dReleaseTime = 0)) := by
  unfold envelope_adsr.amplitude_divisors
  by_cases hh : dTimeOn > dTimeOff
  · rw [if_pos hh, zero_mem_stage_divisors e _ hd]
    constructor
    · intro h; exact Or.inl ⟨hh, h⟩
    · rintro (⟨_, h⟩ | ⟨h, _⟩)
      · exact h
      · exact absurd hh (not_lt.mpr h)
  · rw [if_neg hh, List.mem_append, zero_mem_stage_divisors e _ hd]
    have hle : dTimeOn ≤ dTimeOff := not_lt.mp hh
    constructor
    · rintro (h | h)
      · exact Or.inr ⟨hle, Or.inl h⟩
      · exact Or.inr ⟨hle, Or.inr (by simpa using h : (0 : FTYPE) = e.dReleaseTime).symm⟩
    · rintro (⟨h, _⟩ | ⟨_, h | h⟩)
      · exact absurd h hh
      · exact Or.inl h
      · right; rw [h]; simp

/-- C11 (amended). Evaluating the envelope of the Bell and of the 8-Bit Bell never divides
by zero, at any time, on time and off time.  The other four configurations do: the
Harmonica (attack time 0) exactly when the note is held and `time ≤ on`, or `on = off`;
the Drum Kick and the Drum HiHat (release time 0) exactly when the note is released
(`on ≤ off`); the Drum Snare (attack and release time 0) exactly when the note is held
and `time ≤ on`, or released. -/
theorem C11_zero_divisors_by_instrument (dTime dTimeOn dTimeOff : FTYPE) :
    (∀ d ∈ instrument_bell.env.amplitude_divisors dTime dTimeOn dTimeOff, d ≠ 0)
      ∧ (∀ d ∈ instrument_bell8.env.amplitude_divisors dTime dTimeOn dTimeOff, d ≠ 0)
      ∧ ((0 : FTYPE) ∈ instrument_harmonica.env.amplitude_divisors dTime dTimeOn dTimeOff
          ↔ (dTimeOn > dTimeOff ∧ dTime ≤ dTimeOn) ∨ dTimeOn = dTimeOff)
      ∧ ((0 : FTYPE) ∈ instrument_drumkick.env.amplitude_divisors dTime dTimeOn dTimeOff
          ↔ dTimeOn ≤ dTimeOff)
      ∧ ((0 : FTYPE) ∈ instrument_drumsnare.env.amplitude_divisors dTime dTimeOn dTimeOff
          ↔ (dTimeOn > dTimeOff ∧ dTime ≤ dTimeOn) ∨ dTimeOn ≤ dTimeOff)
      ∧ ((0 : FTYPE) ∈ instrument_drumhihat.env.amplitude_divisors dTime dTimeOn dTimeOff
          ↔ dTimeOn ≤ dTimeOff) := by
  refine ⟨bell_divisors _ _ _, bell8_divisors _ _ _, ?_, ?_, ?_, ?_⟩
  · rw [zero_mem_amplitude_divisors _ _ _ _
      (by norm_num [instrument_harmonica, envelope_adsr.new])]
    norm_num [instrument_harmonica, envelope_adsr.new]
    constructor
    · rintro (⟨h1, h2⟩ | ⟨h1, h2⟩)
      · exact Or.inl ⟨h1, h2⟩
      · exact Or.inr (le_antisymm h1 h2)
    · rintro (⟨h1, h2⟩ | h)
      · exact Or.inl ⟨h1, h2⟩
      · exact Or.inr ⟨h.le, h.ge⟩
  · rw [zero_mem_amplitude_divisors _ _ _ _
      (by norm_num [instrument_drumkick, envelope_adsr.new])]
    norm_num [instrument_drumkick, envelope_adsr.new]
  · rw [zero_mem_amplitude_divisors _ _ _ _
      (by norm_num [instrument_drumsnare, envelope_adsr.new])]
    norm_num [instrument_drumsnare, envelope_adsr.new]
  · rw [zero_mem_amplitude_divisors _ _ _ _
      (by norm_num [instrument_drumhihat, envelope_adsr.new])]
    norm_num [instrument_drumhihat, envelope_adsr.new]

/-- C11 (counterexample). A zero divisor is used by the Harmonica and by the Drum Snare
for a held note rendered at its on time (attack time 0), and by the Drum Kick and the
Drum HiHat for a released note (release time 0). -/
theorem C11_zero_divisor_evaluated :
    (0 : FTYPE) ∈ instrument_harmonica.env.amplitude_divisors 1 1 0
      ∧ (0 : FTYPE) ∈ instrument_drumsnare.env.amplitude_divisors 1 1 0
      ∧ (0 : FTYPE) ∈ instrument_drumkick.env.amplitude_divisors 1 0 0
      ∧ (0 : FTYPE) ∈ instrument_drumhihat.env.amplitude_divisors 1 0 0 := by
  refine ⟨?_, ?_, ?_, ?_⟩ <;>
    norm_num [envelope_adsr.amplitude_divisors, envelope_adsr.stage_divisors,
      instrument_harmonica, instrument_drumsnare, instrument_drumkick, instrument_drumhihat,
      envelope_adsr.new]

theorem snap_zero_or_gt (x : FTYPE) :
    (if x ≤ 0.01 then 0 else x) = 0 ∨ 0.01 < (if x ≤ 0.01 then 0 else x) := by
  split_ifs with hx
  · exact Or.inl rfl
  · exact Or.inr (not_le.mp hx)

/-- C20 (counterexample). For the Harmonica envelope (attack time 0) and a held note
rendered at its on time, the level is `0 / 0`, a NaN, and is returned as such: the value
is neither 0 nor above 0.01. -/
theorem C20_amplitude_nan :
    instrument_harmonica.env.amplitude_x 1 1 0 = xfloat.nan
      ∧ ¬ (instrument_harmonica.env.amplitude_x 1 1 0 = xfloat.fin 0
          ∨ (xfloat.fin 0.01).lt (instrument_harmonica.env.amplitude_x 1 1 0) = true) := by
  have h : instrument_harmonica.env.amplitude_x 1 1 0 = xfloat.nan := by
    norm_num [envelope_adsr.amplitude_x, envelope_adsr.stage_x, instrument_harmonica,
      envelope_adsr.new, xfloat.div, xfloat.mul, xfloat.signed_inf, xfloat.le]
  rw [h]
  simp [xfloat.lt]

/-- C20 (amended). The value returned by `envelope_adsr::amplitude` is exactly 0, or
strictly greater than 0.01 (possibly infinite), or a NaN; when no division by zero is
evaluated it is the finite level of exact arithmetic, which is exactly 0 (every computed
level at or below 0.01, negative levels included) or strictly greater than 0.01. -/
theorem C20_amplitude_zero_or_above_threshold (e : envelope_adsr) (dTime dTimeOn dTimeOff : FTYPE) :
    (e.amplitude_x dTime dTimeOn dTimeOff = .fin 0
        ∨ (xfloat.fin 0.01).lt (e.amplitude_x dTime dTimeOn dTimeOff) = true
        ∨ e.amplitude_x dTime dTimeOn dTimeOff = .nan)
      ∧ ((∀ d ∈ e.amplitude_divisors dTime dTimeOn dTimeOff, d ≠ 0) →
          e.amplitude_x dTime dTimeOn dTimeOff = .fin (e.amplitude dTime dTimeOn dTimeOff)
            ∧ (e.amplitude dTime dTimeOn dTimeOff = 0
              ∨ 0.01 < e.amplitude dTime dTimeOn dTimeOff)) := by
  refine ⟨?_, fun h => ⟨amplitude_x_eq e _ _ _ h, ?_⟩⟩
  · unfold envelope_adsr.amplitude_x
    exact xfloat_snap_cases _
  · unfold envelope_adsr.amplitude
    exact snap_zero_or_gt _

theorem C20_amplitude_zero_or_above_threshold_witness :
    instrument_bell.env.amplitude_x 1 1 0 = .fin (instrument_bell.env.amplitude 1 1 0)
      ∧ (instrument_bell.env.amplitude 1 1 0 = 0
        ∨ 0.01 < instrument_bell.env.amplitude 1 1 0) :=
  (C20_amplitude_zero_or_above_threshold instrument_bell.env 1 1 0).2 (bell_divisors 1 1 0)

/-! ## The instruments, the scale and the oscillator -/

/-- The flag returned by the three tonal instruments: set when the level is at most 0,
otherwise left as it was. -/
theorem tonal_sound_flag (m : Libm) (c : instrument_base) (dTime : FTYPE) (n : note)
    (b : Bool) (seed : ℕ)
    (hk : c.kind = .bell ∨ c.kind = .bell8 ∨ c.kind = .harmonica) :
    (c.sound m dTime n b seed).2.1
      = if env dTime c.env n.on_ n.off ≤ 0 then true else b := by
  unfold instrument_base.sound
  rcases hk with h | h | h <;> rw [h] <;>
    simp [instrument_bell.sound, instrument_bell8.sound, instrument_harmonica.sound]

theorem amplitude_zero_or_gt (e : envelope_adsr) (dTime dTimeOn dTimeOff : FTYPE) :
    e.amplitude dTime dTimeOn dTimeOff = 0 ∨ 0.01 < e.amplitude dTime dTimeOn dTimeOff := by
  unfold envelope_adsr.amplitude
  exact snap_zero_or_gt _

theorem amplitude_le_zero_iff (e : envelope_adsr) (dTime dTimeOn dTimeOff : FTYPE) :
    e.amplitude dTime dTimeOn dTimeOff ≤ 0 ↔ e.amplitude dTime dTimeOn dTimeOff = 0 := by
  rcases amplitude_zero_or_gt e dTime dTimeOn dTimeOff with h | h
  · simp only [h, le_refl]
  · constructor
    · intro h0
      norm_num at h
      linarith
    · intro h0
      exact h0.le

/-- C12 (counterexample). The Bell reports a held note (`on = 1 > off = 0`) finished when
it is rendered at its on time: the level is 0 there and the flag is set whatever the
state of the key. -/
theorem C12_held_note_finished :
    held_note.on_ > held_note.off
      ∧ env 1 instrument_bell.env held_note.on_ held_note.off = 0
      ∧ (instrument_base.sound libm_model instrument_bell 1 held_note false 0).2.1 = true := by
  have h : env 1 instrument_bell.env held_note.on_ held_note.off = 0 := by
    norm_num [env, instrument_bell, envelope_adsr.new, envelope_adsr.amplitude,
      envelope_adsr.stage, held_note]
  refine ⟨by norm_num [held_note], h, ?_⟩
  rw [tonal_sound_flag _ _ _ _ _ _ (Or.inl rfl), h]
  simp

/-- C12 (amended). For an instrument of class Bell, 8-Bit Bell or Harmonica, and a time
and note at which the envelope divides by no zero, `sound` sets the finished flag if and
only if the envelope amplitude is 0, whether the note is held or released. -/
theorem C12_finished_iff_amplitude_zero (m : Libm) (c : instrument_base) (dTime : FTYPE)
    (n : note) (seed : ℕ)
    (hk : c.kind = .bell ∨ c.kind = .bell8 ∨ c.kind = .harmonica)
    (hdiv : ∀ d ∈ c.env.amplitude_divisors dTime n.on_ n.off, d ≠ 0) :
    c.env.amplitude_x dTime n.on_ n.off = .fin (env dTime c.env n.on_ n.off)
      ∧ ((c.sound m dTime n false seed).2.1 = true ↔ env dTime c.env n.on_ n.off = 0) := by
  refine ⟨amplitude_x_eq c.env _ _ _ hdiv, ?_⟩
  rw [tonal_sound_flag m c dTime n false seed hk]
  unfold env
  rw [← amplitude_le_zero_iff]
  simp

theorem C12_finished_iff_amplitude_zero_witness :
    instrument_bell.env.amplitude_x 1 held_note.on_ held_note.off
        = .fin (env 1 instrument_bell.env held_note.on_ held_note.off)
      ∧ ((instrument_base.sound libm_model instrument_bell 1 held_note false 0).2.1 = true
        ↔ env 1 instrument_bell.env held_note.on_ held_note.off = 0) :=
  C12_finished_iff_amplitude_zero libm_model instrument_bell 1 held_note 0 (Or.inl rfl)
    (bell_divisors _ _ _)

theorem scale_eq (nNoteID nScaleID : Int) : scale nNoteID nScaleID = 8 * semitone ^ nNoteID :=
  rfl

theorem semitone_pos : 0 < semitone := by norm_num [semitone]

theorem semitone_pow_12 :
    semitone ^ (12 : ℤ) ≠ 2 ∧ |semitone ^ (12 : ℤ) - 2| < 1 / 10 ^ 30 := by
  have h : semitone ^ (12 : ℤ) = semitone ^ (12 : ℕ) := by norm_cast
  rw [h]
  constructor
  · norm_num [semitone]
  · rw [abs_lt]
    constructor <;> norm_num [semitone]

/-- C14 (counterexample). `scale(12)` is not exactly 16. -/
theorem C14_scale_12_ne_16 : scale 12 SCALE_DEFAULT ≠ 16 := by
  rw [scale_eq]
  intro h
  have h2 : semitone ^ (12 : ℤ) = 2 := by linarith
  exact semitone_pow_12.1 h2

/-- C14 (amended). `scale(0) = 8` exactly and `scale(n + 12) = r ^ 12 * scale(n)` for
every integer `n`, where `r` is the factor written in the source; `r ^ 12` is not 2, it
differs from 2 by less than `10 ^ (-30)`. -/
theorem C14_scale_octave (n nScaleID : Int) :
    scale 0 nScaleID = 8
      ∧ scale (n + 12) nScaleID = semitone ^ (12 : ℤ) * scale n nScaleID
      ∧ semitone ^ (12 : ℤ) ≠ 2
      ∧ |semitone ^ (12 : ℤ) - 2| < 1 / 10 ^ 30 := by
  refine ⟨by simp [scale_eq], ?_, semitone_pow_12.1, semitone_pow_12.2⟩
  rw [scale_eq, scale_eq, zpow_add₀ semitone_pos.ne']
  ring

/-- C16 (counterexample). With the selector 1, which is not `SCALE_DEFAULT`, `scale(0)`
is 8, not 0. -/
theorem C16_scale_other_selector_not_silent :
    scale 0 1 = 8 ∧ (1 : Int) ≠ SCALE_DEFAULT ∧ scale 0 1 ≠ 0 := by
  refine ⟨by simp [scale_eq], by decide, by simp [scale_eq]⟩

/-! ## The keyboard -/

theorem modify_fixed (f : note → note) (l : List note) (i : ℕ) (n : note)
    (hget : l.get? i = some n) (hf : f n = n) : l.modify f i = l := by
  induction l generalizing i with
  | nil => simp
  | cons a rest ih =>
    cases i with
    | zero =>
      simp only [List.get?_cons_zero, Option.some.injEq] at hget
      simp [hget, hf]
    | succ i =>
      simp only [List.get?_cons_succ] at hget
      simp [ih i hget]

theorem modify_at (f : note → note) (l : List note) (i : ℕ) (n : note)
    (hget : l.get? i = some n) : l.modify f i = l.set i (f n) := by
  induction l generalizing i with
  | nil => simp
  | cons a rest ih =>
    cases i with
    | zero =>
      simp only [List.get?_cons_zero, Option.some.injEq] at hget
      simp [hget]
    | succ i =>
      simp only [List.get?_cons_succ] at hget
      simp [ih i hget]

/-- C17. In the key handling of `main`, when the key is not pressed and the note found for
the key is already released (`off ≥ on`) the registry is left unchanged, that note and
all the others; when the note found is held (`off < on`) its `off` becomes the current
time and nothing else changes. -/
theorem C17_note_off_released (k nKeyState : Int) (dTimeNow : FTYPE) (vecNotes : List note)
    (i : ℕ) (n : note)
    (hkey : Int.land nKeyState 0x8000 = 0)
    (hfind : find_if (fun item => item.id == k + 64
      && item.channel == some instrument_harmonica) vecNotes = some i)
    (hget : vecNotes.get? i = some n) :
    (n.off ≥ n.on_ → key_step k nKeyState dTimeNow vecNotes = vecNotes)
      ∧ (n.off < n.on_ →
          key_step k nKeyState dTimeNow vecNotes = vecNotes.set i { n with off := dTimeNow }) := by
  unfold key_step
  simp only [hfind, hkey, ne_eq, not_true_eq_false, if_false]
  constructor
  · intro h
    exact modify_fixed _ _ i n hget (if_neg (not_lt.mpr h))
  · intro h
    rw [modify_at _ _ i n hget, if_pos h]

theorem C17_note_off_released_witness :
    key_step 0 0 5 key_registry = key_registry
      ∧ key_step 2 0 5 key_registry = key_registry.set 2
          { id := 66, on_ := 3, off := 5, active := true,
            channel := some instrument_harmonica } :=
  ⟨(C17_note_off_released 0 0 5 key_registry 0
      { id := 64, on_ := 1, off := 2, active := true, channel := some instrument_harmonica }
      (by decide) (by simp [find_if, key_registry]) rfl).1 (by norm_num),
   (C17_note_off_released 2 0 5 key_registry 2
      { id := 66, on_ := 3, off := 0, active := true, channel := some instrument_harmonica }
      (by decide) (by simp [find_if, key_registry]) rfl).2 (by norm_num)⟩

/-! ## The sequencer loop -/

theorem channel_loop_eq (s : sequencer) (rest : List channel) :
    ∀ (c : ℕ) (vecNotes : List note), s.vecChannel.drop c = rest →
      s.channel_loop rest c vecNotes = vecNotes ++ triggered rest s.nCurrentBeat := by
  induction rest with
  | nil => intro c vecNotes _; simp [sequencer.channel_loop, triggered]
  | cons v rest ih =>
    intro c vecNotes h
    have hget : s.vecChannel.get? c = some v := by
      have h1 := congrArg List.head? h
      simpa [List.head?_drop] using h1
    have hdrop : s.vecChannel.drop (c + 1) = rest := by
      have h1 := congrArg List.tail h
      simpa [List.tail_drop] using h1
    simp only [sequencer.channel_loop, hget]
    rw [ih (c + 1) _ hdrop]
    by_cases hx : wstring_at v.sBeat s.nCurrentBeat = some 'X'
    · simp [triggered, List.filter_cons, hx, note.new]
    · simp [triggered, List.filter_cons, hx]

theorem sub_beat_eq (s : sequencer) :
    s.sub_beat = { s with
      fAccumulate := s.fAccumulate - s.fBeatTime,
      nCurrentBeat := next_step s.nTotalBeats s.nCurrentBeat,
      vecNotes := s.vecNotes
        ++ triggered s.vecChannel (next_step s.nTotalBeats s.nCurrentBeat) } := by
  unfold sequencer.sub_beat next_step
  simp only []
  split_ifs with h
  · rw [channel_loop_eq _ _ 0 _ (by simp)]
  · rw [channel_loop_eq _ _ 0 _ (by simp)]

theorem sub_beat_iterate (s : sequencer) (k : ℕ) :
    (sequencer.sub_beat^[k] s) = { s with
      fAccumulate := s.fAccumulate - k * s.fBeatTime,
      nCurrentBeat := step_after s.nTotalBeats s.nCurrentBeat k,
      vecNotes := s.vecNotes ++ expected_notes s k } := by
  induction k with
  | zero => simp [step_after, expected_notes]
  | succ k ih =>
    rw [Function.iterate_succ_apply', ih, sub_beat_eq]
    simp only [step_after, expected_notes, List.range_succ, List.flatMap_append,
      List.flatMap_singleton, List.flatMap_nil, List.append_nil, List.append_assoc]
    congr 1
    push_cast
    ring

theorem while_loop_run (k : ℕ) :
    ∀ s : sequencer, 0 < s.fBeatTime → (k ≠ 0 → k * s.fBeatTime ≤ s.fAccumulate) →
      s.fAccumulate < (k + 1) * s.fBeatTime →
      (∀ fuel, k ≤ fuel → sequencer.while_loop fuel s = some (sequencer.sub_beat^[k] s))
        ∧ (∀ fuel, fuel < k → sequencer.while_loop fuel s = none) := by
  induction k with
  | zero =>
    intro s _ _ hlt
    refine ⟨fun fuel _ => ?_, fun fuel h => absurd h (Nat.not_lt_zero _)⟩
    simpa using while_loop_exit fuel s (by simpa using hlt)
  | succ k ih =>
    intro s hd hle hlt
    have hle1 : ((k : ℕ) + 1 : FTYPE) * s.fBeatTime ≤ s.fAccumulate := by
      simpa using hle (Nat.succ_ne_zero k)
    have hk0 : (0 : FTYPE) ≤ k := Nat.cast_nonneg k
    have hge : s.fAccumulate ≥ s.fBeatTime := by nlinarith
    have hb : s.sub_beat.fBeatTime = s.fBeatTime := by rw [sub_beat_eq]
    have ha : s.sub_beat.fAccumulate = s.fAccumulate - s.fBeatTime := by rw [sub_beat_eq]
    obtain ⟨ih1, ih2⟩ := ih s.sub_beat (by rw [hb]; exact hd)
      (by intro _; rw [hb, ha]; linarith)
      (by rw [hb, ha]; push_cast at hlt; linarith)
    constructor
    · intro fuel hf
      cases fuel with
      | zero => exact absurd hf (Nat.not_succ_le_zero k)
      | succ fuel =>
        rw [Function.iterate_succ_apply]
        simp only [sequencer.while_loop, hge, if_true]
        exact ih1 fuel (Nat.le_of_succ_le_succ hf)
    · intro fuel hf
      cases fuel with
      | zero => simp [sequencer.while_loop, hge]
      | succ fuel =>
        simp only [sequencer.while_loop, hge, if_true]
        exact ih2 fuel (Nat.lt_of_succ_lt_succ hf)

theorem while_loop_some (fuel : ℕ) :
    ∀ s s1 : sequencer, sequencer.while_loop fuel s = some s1 →
      ∃ k, k ≤ fuel ∧ s1 = (sequencer.sub_beat^[k] s) := by
  induction fuel with
  | zero =>
    intro s s1 h
    refine ⟨0, le_refl _, ?_⟩
    simp only [sequencer.while_loop] at h
    split_ifs at h
    simpa using h.symm
  | succ fuel ih =>
    intro s s1 h
    simp only [sequencer.while_loop] at h
    split_ifs at h
    · obtain ⟨k, hk, hs⟩ := ih _ _ h
      exact ⟨k + 1, Nat.succ_le_succ hk, by rw [Function.iterate_succ_apply]; exact hs⟩
    · exact ⟨0, Nat.zero_le _, by simpa using h.symm⟩

theorem floor_bounds (a d : FTYPE) (hd : 0 < d) :
    (⌊a / d⌋.toNat ≠ 0 → (⌊a / d⌋.toNat : FTYPE) * d ≤ a)
      ∧ a < ((⌊a / d⌋.toNat : FTYPE) + 1) * d := by
  constructor
  · intro h0
    have hpos : 0 < ⌊a / d⌋ := by
      by_contra hn
      exact h0 (Int.toNat_eq_zero.mpr (not_lt.mp hn))
    have hcast : ((⌊a / d⌋.toNat : ℕ) : FTYPE) = ((⌊a / d⌋ : ℤ) : FTYPE) := by
      have := Int.toNat_of_nonneg hpos.le
      exact_mod_cast congrArg (fun z : ℤ => (z : FTYPE)) this
    rw [hcast]
    have := Int.floor_le (a / d)
    calc ((⌊a / d⌋ : ℤ) : FTYPE) * d ≤ a / d * d := mul_le_mul_of_nonneg_right this hd.le
      _ = a := div_mul_cancel₀ a hd.ne'
  · have h1 : a / d < (⌊a / d⌋ : FTYPE) + 1 := Int.lt_floor_add_one (a / d)
    have h2 : ((⌊a / d⌋ : ℤ) : FTYPE) ≤ ((⌊a / d⌋.toNat : ℕ) : FTYPE) := by
      have := Int.self_le_toNat ⌊a / d⌋
      exact_mod_cast this
    have h3 : a / d < ((⌊a / d⌋.toNat : ℕ) : FTYPE) + 1 := by linarith
    calc a = a / d * d := (div_mul_cancel₀ a hd.ne').symm
      _ < (((⌊a / d⌋.toNat : ℕ) : FTYPE) + 1) * d := mul_lt_mul_of_pos_right h3 hd

theorem step_after_mod (N c : Int) (hc0 : 0 ≤ c) (hc1 : c < N) (k : ℕ) :
    step_after N c k = (c + k) % N := by
  induction k with
  | zero => simp [step_after, Int.emod_eq_of_lt hc0 hc1]
  | succ k ih =>
    have hN : 0 < N := lt_of_le_of_lt hc0 hc1
    have hx0 : 0 ≤ (c + k) % N := Int.emod_nonneg _ hN.ne'
    have hx1 : (c + k) % N < N := Int.emod_lt_of_pos _ hN
    have hmod : (c + ((k + 1 : ℕ) : Int)) % N = ((c + k) % N + 1) % N := by
      rw [Int.emod_add_emod]
      push_cast
      ring_nf
    rw [step_after, ih, hmod, next_step]
    split_ifs with h
    · have : (c + k) % N + 1 = N := le_antisymm (by linarith) h
      rw [this, Int.emod_self]
    · rw [Int.emod_eq_of_lt (by linarith) (not_le.mp h)]

theorem while_loop_diverges (fuel : ℕ) :
    ∀ s : sequencer, s.fBeatTime ≤ 0 → s.fBeatTime ≤ s.fAccumulate →
      sequencer.while_loop fuel s = none := by
  induction fuel with
  | zero =>
    intro s _ ha
    simp [sequencer.while_loop, ha]
  | succ fuel ih =>
    intro s hd ha
    have hb : s.sub_beat.fBeatTime = s.fBeatTime := by rw [sub_beat_eq]
    have hacc : s.sub_beat.fAccumulate = s.fAccumulate - s.fBeatTime := by rw [sub_beat_eq]
    simp only [sequencer.while_loop, ge_iff_le, ha, if_true]
    exact ih s.sub_beat (by rw [hb]; exact hd) (by rw [hb, hacc]; linarith)

theorem Update_eq (fuel : ℕ) (s : sequencer) (e : FTYPE) :
    sequencer.Update fuel s e
      = (sequencer.while_loop fuel
          { s with vecNotes := [], fAccumulate := s.fAccumulate + e }).map
          fun s3 => ((s3.vecNotes.length : Int), s3) :=
  rfl

/-- C18 (amended). In exact arithmetic, for a sequencer with sub-beat duration `d > 0`,
`N = beats * sub_beats ≥ 1` steps, `0 ≤ current_step < N` and accumulator `a` with
`a + elapsed ≥ 0`, let `k = floor((a + elapsed) / d)`: `Update(elapsed)` returns once the
loop is given `k` iterations and not with fewer; afterwards the accumulator is
`a + elapsed - k * d`, which lies in `[0, d)`, and `current_step` is
`(current_step + k) mod N`. -/
theorem C18_update_counts_sub_beats (s : sequencer) (e : FTYPE) (k : ℕ)
    (hd : 0 < s.fBeatTime) (hN : s.nTotalBeats = s.nBeats * s.nSubBeats)
    (_hN1 : 1 ≤ s.nBeats * s.nSubBeats)
    (hc0 : 0 ≤ s.nCurrentBeat) (hc1 : s.nCurrentBeat < s.nBeats * s.nSubBeats)
    (ha : 0 ≤ s.fAccumulate + e)
    (hk : (k : ℤ) = ⌊(s.fAccumulate + e) / s.fBeatTime⌋) :
    ∃ s1 : sequencer,
      (∀ fuel, k ≤ fuel → sequencer.Update fuel s e = some ((s1.vecNotes.length : Int), s1))
        ∧ (∀ fuel, fuel < k → sequencer.Update fuel s e = none)
        ∧ s1.fAccumulate = s.fAccumulate + e - k * s.fBeatTime
        ∧ 0 ≤ s1.fAccumulate ∧ s1.fAccumulate < s.fBeatTime
        ∧ s1.nCurrentBeat = (s.nCurrentBeat + k) % (s.nBeats * s.nSubBeats) := by
  have hk' : k = ⌊(s.fAccumulate + e) / s.fBeatTime⌋.toNat := by
    rw [← hk]; simp
  obtain ⟨hb1, hb2⟩ := floor_bounds (s.fAccumulate + e) s.fBeatTime hd
  rw [← hk'] at hb1 hb2
  obtain ⟨hr1, hr2⟩ := while_loop_run k
    { s with vecNotes := [], fAccumulate := s.fAccumulate + e } hd hb1 hb2
  refine ⟨sequencer.sub_beat^[k] { s with vecNotes := [], fAccumulate := s.fAccumulate + e },
    ?_, ?_, ?_, ?_, ?_, ?_⟩
  · intro fuel hf
    rw [Update_eq, hr1 fuel hf]
    rfl
  · intro fuel hf
    rw [Update_eq, hr2 fuel hf]
    rfl
  · rw [sub_beat_iterate]
  · rw [sub_beat_iterate]
    simp only []
    by_cases h0 : k = 0
    · subst h0; simpa using ha
    · linarith [hb1 h0]
  · rw [sub_beat_iterate]
    simp only []
    linarith
  · rw [sub_beat_iterate]
    simp only []
    rw [hN, step_after_mod _ _ hc0 hc1]

/-- C19. Whenever `Update` returns, the returned value is the length of the output list
after the call, the result does not depend on the output list before the call, and the
output list consists, for each of the `k` sub-beats processed in order and for each
channel in channel order whose pattern has `X` at the step reached by that sub-beat, of
exactly one note with id 64, active, `on = off = 0`, bound to the instrument of that
channel.  When the sub-beat duration is positive `Update` does return, having processed
`floor((a + elapsed) / d)` sub-beats (none when that is negative); when it is not positive
and the loop is entered, `Update` never returns. -/
theorem C19_update_emits_triggered_notes (s : sequencer) (e : FTYPE) :
    (∀ (fuel : ℕ) (r : Int) (s1 : sequencer), sequencer.Update fuel s e = some (r, s1) →
        r = s1.vecNotes.length
          ∧ (∀ l, sequencer.Update fuel { s with vecNotes := l } e = some (r, s1))
          ∧ ∃ k, k ≤ fuel
            ∧ s1 = (sequencer.sub_beat^[k]
                { s with vecNotes := [], fAccumulate := s.fAccumulate + e })
            ∧ s1.vecNotes = expected_notes s k)
      ∧ (0 < s.fBeatTime → ∀ fuel, ⌊(s.fAccumulate + e) / s.fBeatTime⌋.toNat ≤ fuel →
          ∃ s1 : sequencer,
            sequencer.Update fuel s e = some ((s1.vecNotes.length : Int), s1)
              ∧ s1.vecNotes
                = expected_notes s ⌊(s.fAccumulate + e) / s.fBeatTime⌋.toNat)
      ∧ (s.fBeatTime ≤ 0 → s.fBeatTime ≤ s.fAccumulate + e →
          ∀ fuel, sequencer.Update fuel s e = none) := by
  refine ⟨?_, ?_, ?_⟩
  · intro fuel r s1 h
    rw [Update_eq] at h
    cases hw : sequencer.while_loop fuel
        { s with vecNotes := [], fAccumulate := s.fAccumulate + e } with
    | none => rw [hw] at h; simp at h
    | some s3 =>
      rw [hw] at h
      simp only [Option.map_some', Option.some.injEq, Prod.mk.injEq] at h
      obtain ⟨hr, hs⟩ := h
      subst hs
      obtain ⟨k, hk, hs3⟩ := while_loop_some fuel _ _ hw
      refine ⟨hr.symm, ?_, k, hk, hs3, ?_⟩
      · intro l
        rw [Update_eq]
        simp only []
        rw [hw]
        simp [hr]
      · rw [hs3, sub_beat_iterate]
        simp [expected_notes]
  · intro hd fuel hf
    obtain ⟨hb1, hb2⟩ := floor_bounds (s.fAccumulate + e) s.fBeatTime hd
    obtain ⟨hr1, _⟩ := while_loop_run ⌊(s.fAccumulate + e) / s.fBeatTime⌋.toNat
      { s with vecNotes := [], fAccumulate := s.fAccumulate + e } hd hb1 hb2
    refine ⟨sequencer.sub_beat^[⌊(s.fAccumulate + e) / s.fBeatTime⌋.toNat]
      { s with vecNotes := [], fAccumulate := s.fAccumulate + e }, ?_, ?_⟩
    · rw [Update_eq, hr1 fuel hf]
      rfl
    · rw [sub_beat_iterate]
      simp [expected_notes]
  · intro hd ha fuel
    rw [Update_eq, while_loop_diverges fuel
      { s with vecNotes := [], fAccumulate := s.fAccumulate + e } hd ha]
    rfl

theorem seq_x_floor : ⌊((seq_x none).fAccumulate + 0.3) / (seq_x none).fBeatTime⌋ = 2 := by
  rw [seq_x_fAccumulate, seq_x_fBeatTime, Int.floor_eq_iff]
  norm_num

theorem C18_update_counts_sub_beats_witness :
    ∃ s1 : sequencer,
      (∀ fuel, 2 ≤ fuel →
          sequencer.Update fuel (seq_x none) 0.3 = some ((s1.vecNotes.length : Int), s1))
        ∧ (∀ fuel, fuel < 2 → sequencer.Update fuel (seq_x none) 0.3 = none)
        ∧ s1.fAccumulate
          = (seq_x none).fAccumulate + 0.3 - ((2 : ℕ) : FTYPE) * (seq_x none).fBeatTime
        ∧ 0 ≤ s1.fAccumulate ∧ s1.fAccumulate < (seq_x none).fBeatTime
        ∧ s1.nCurrentBeat
          = ((seq_x none).nCurrentBeat + ((2 : ℕ) : Int))
              % ((seq_x none).nBeats * (seq_x none).nSubBeats) :=
  C18_update_counts_sub_beats (seq_x none) 0.3 2 (by norm_num [seq_x_fBeatTime])
    (by norm_num [seq_x, sequencer.new, sequencer.AddInstrument, sequencer.setBeat])
    (by norm_num [seq_x, sequencer.new, sequencer.AddInstrument, sequencer.setBeat])
    (by norm_num [seq_x, sequencer.new, sequencer.AddInstrument, sequencer.setBeat])
    (by norm_num [seq_x, sequencer.new, sequencer.AddInstrument, sequencer.setBeat])
    (by norm_num [seq_x_fAccumulate])
    (by rw [seq_x_floor]; rfl)

theorem seq_x_floor_half :
    ⌊((seq_x none).fAccumulate + 0.5) / (seq_x none).fBeatTime⌋.toNat = 4 := by
  have h : ⌊((seq_x none).fAccumulate + 0.5) / (seq_x none).fBeatTime⌋ = 4 := by
    rw [seq_x_fAccumulate, seq_x_fBeatTime, Int.floor_eq_iff]
    norm_num
  rw [h]
  rfl

theorem C19_update_emits_triggered_notes_witness :
    ∃ s1 : sequencer,
      sequencer.Update 4 (seq_x none) 0.5 = some ((s1.vecNotes.length : Int), s1)
        ∧ s1.vecNotes = expected_notes (seq_x none)
            ⌊((seq_x none).fAccumulate + 0.5) / (seq_x none).fBeatTime⌋.toNat :=
  (C19_update_emits_triggered_notes (seq_x none) 0.5).2.1 (by norm_num [seq_x_fBeatTime]) 4
    (by rw [seq_x_floor_half])

theorem expected_notes_seq_x :
    expected_notes (seq_x none) 4
      = [{ id := 64, on_ := 0, off := 0, active := true, channel := none }] := by
  have h2 : Int.toNat 2 = 2 := rfl
  have h3 : Int.toNat 3 = 3 := rfl
  simp [expected_notes, List.range_succ, triggered, step_after, next_step, seq_x,
    sequencer.new, sequencer.AddInstrument, sequencer.setBeat, wstring_at, List.modify,
    List.flatMap, h2, h3]

/-! ## The drums -/

/-- The flag returned by the three drums: set when the time since note-on has reached
the maximum life time of the instrument, otherwise left as it was. -/
theorem drum_sound_flag (m : Libm) (c : instrument_base) (dTime : FTYPE) (n : note)
    (b : Bool) (seed : ℕ)
    (hk : c.kind = .drumkick ∨ c.kind = .drumsnare ∨ c.kind = .drumhihat) :
    (c.sound m dTime n b seed).2.1
      = if c.fMaxLifeTime > 0 ∧ dTime - n.on_ ≥ c.fMaxLifeTime then true else b := by
  unfold instrument_base.sound
  rcases hk with h | h | h <;> rw [h] <;>
    simp [instrument_drumkick.sound, instrument_drumsnare.sound, instrument_drumhihat.sound]

theorem drum_max_life_times :
    instrument_drumkick.fMaxLifeTime = 1.5 ∧ instrument_drumsnare.fMaxLifeTime = 1.0
      ∧ instrument_drumhihat.fMaxLifeTime = 1.0 :=
  ⟨rfl, rfl, rfl⟩

/-- C21. For the Drum Kick (maximum life time 1.5), the Drum Snare (1.0) and the Drum
HiHat (1.0), every note and every time: `sound` sets the finished flag when
`time - on` exceeds the maximum life time of the instrument and leaves it as it was when
`time - on` is less than it; the flag is the same for every note with that `on`, whatever
its `off`, and does not depend on the library, hence not on the envelope amplitude. -/
theorem C21_drum_finished_by_life_time (m : Libm) (c : instrument_base) (dTime : FTYPE)
    (n : note) (b : Bool) (seed : ℕ)
    (hc : c = instrument_drumkick ∨ c = instrument_drumsnare ∨ c = instrument_drumhihat) :
    (dTime - n.on_ > c.fMaxLifeTime → (c.sound m dTime n b seed).2.1 = true)
      ∧ (dTime - n.on_ < c.fMaxLifeTime → (c.sound m dTime n b seed).2.1 = b)
      ∧ (∀ (m2 : Libm) (n2 : note) (seed2 : ℕ), n2.on_ = n.on_ →
          (c.sound m2 dTime n2 b seed2).2.1 = (c.sound m dTime n b seed).2.1)
      ∧ (instrument_drumkick.fMaxLifeTime = 1.5 ∧ instrument_drumsnare.fMaxLifeTime = 1.0
          ∧ instrument_drumhihat.fMaxLifeTime = 1.0) := by
  have hk : c.kind = .drumkick ∨ c.kind = .drumsnare ∨ c.kind = .drumhihat := by
    rcases hc with h | h | h <;> rw [h]
    · exact Or.inl rfl
    · exact Or.inr (Or.inl rfl)
    · exact Or.inr (Or.inr rfl)
  have hpos : c.fMaxLifeTime > 0 := by
    rcases hc with h | h | h <;> rw [h] <;>
      norm_num [instrument_drumkick, instrument_drumsnare, instrument_drumhihat]
  refine ⟨fun h => ?_, fun h => ?_, fun m2 n2 seed2 h => ?_, drum_max_life_times⟩
  · rw [drum_sound_flag m c dTime n b seed hk, if_pos ⟨hpos, h.le⟩]
  · rw [drum_sound_flag m c dTime n b seed hk, if_neg (fun hh => absurd hh.2 (not_le.mpr h))]
  · rw [drum_sound_flag m c dTime n b seed hk, drum_sound_flag m2 c dTime n2 b seed2 hk, h]

theorem C21_drum_finished_by_life_time_witness :
    (instrument_base.sound libm_model instrument_drumkick 3 kick_note false 0).2.1 = true
      ∧ (instrument_base.sound libm_model instrument_drumkick 2 kick_note false 0).2.1
        = false :=
  ⟨(C21_drum_finished_by_life_time libm_model instrument_drumkick 3 kick_note false 0
      (Or.inl rfl)).1 (by norm_num [kick_note, instrument_drumkick]),
   (C21_drum_finished_by_life_time libm_model instrument_drumkick 2 kick_note false 0
      (Or.inl rfl)).2.1 (by norm_num [kick_note, instrument_drumkick])⟩

/-! ## The pattern reads of the sequencer -/

theorem next_step_range (N c : Int) (hN : 1 ≤ N) (hc : 0 ≤ c) :
    0 ≤ next_step N c ∧ next_step N c < N := by
  unfold next_step
  split_ifs with h
  · exact ⟨le_refl _, by linarith⟩
  · exact ⟨by linarith, not_le.mp h⟩

theorem sub_beat_inv (s : sequencer) (h : sequencer_inv s) : sequencer_inv s.sub_beat := by
  obtain ⟨h0, h1, hp⟩ := h
  have hN : 1 ≤ s.nTotalBeats := by linarith
  rw [sub_beat_eq]
  exact ⟨(next_step_range _ _ hN h0).1, (next_step_range _ _ hN h0).2, hp⟩

theorem channel_loop_reads_eq (s : sequencer) (rest : List channel) :
    s.channel_loop_reads rest = rest.map (fun v => (v, s.nCurrentBeat)) := by
  induction rest with
  | nil => rfl
  | cons v rest ih => simp [sequencer.channel_loop_reads, ih]

theorem sub_beat_reads_eq (s : sequencer) :
    s.sub_beat_reads
      = s.vecChannel.map (fun v => (v, next_step s.nTotalBeats s.nCurrentBeat)) := by
  unfold sequencer.sub_beat_reads next_step
  simp only []
  split_ifs <;> rw [channel_loop_reads_eq]

/-- The notes pushed by one run of the loop body are those of the reads that found the
mark `X`. -/
theorem sub_beat_notes_of_reads (s : sequencer) :
    s.sub_beat.vecNotes = s.vecNotes
      ++ (s.sub_beat_reads.filter (fun r => wstring_at r.1.sBeat r.2 == some 'X')).map
          (fun r => { id := 64, on_ := 0, off := 0, active := true,
                      channel := r.1.instrument }) := by
  rw [sub_beat_eq, sub_beat_reads_eq]
  simp only [triggered, List.filter_map, List.map_map]
  rfl

theorem while_loop_reads_valid (fuel : ℕ) :
    ∀ s : sequencer, sequencer_inv s → ∀ r ∈ sequencer.while_loop_reads fuel s,
      r.1 ∈ s.vecChannel ∧ 0 ≤ r.2 ∧ r.2 < s.nTotalBeats
        ∧ r.2 < (r.1.sBeat.length : Int) := by
  induction fuel with
  | zero => intro s _ r h; simp [sequencer.while_loop_reads] at h
  | succ fuel ih =>
    intro s hinv r h
    simp only [sequencer.while_loop_reads] at h
    split_ifs at h
    · rw [List.mem_append] at h
      rcases h with h | h
      · rw [sub_beat_reads_eq, List.mem_map] at h
        obtain ⟨ch, hch, hr⟩ := h
        obtain ⟨h0, h1, hpat⟩ := hinv
        have hN : 1 ≤ s.nTotalBeats := by linarith
        subst hr
        exact ⟨hch, (next_step_range _ _ hN h0).1, (next_step_range _ _ hN h0).2,
          by rw [hpat ch hch]; exact (next_step_range _ _ hN h0).2⟩
      · have hN : s.sub_beat.nTotalBeats = s.nTotalBeats := by rw [sub_beat_eq]
        have hC : s.sub_beat.vecChannel = s.vecChannel := by rw [sub_beat_eq]
        have := ih s.sub_beat (sub_beat_inv s hinv) r h
        rw [hN, hC] at this
        exact this
    · simp at h

theorem while_loop_inv (fuel : ℕ) :
    ∀ s s1 : sequencer, sequencer_inv s → sequencer.while_loop fuel s = some s1 →
      sequencer_inv s1 ∧ s1.nTotalBeats = s.nTotalBeats ∧ s1.vecChannel = s.vecChannel
        ∧ s1.nBeats = s.nBeats ∧ s1.nSubBeats = s.nSubBeats := by
  induction fuel with
  | zero =>
    intro s s1 hinv h
    simp only [sequencer.while_loop] at h
    split_ifs at h
    simp only [Option.some.injEq] at h
    subst h
    exact ⟨hinv, rfl, rfl, rfl, rfl⟩
  | succ fuel ih =>
    intro s s1 hinv h
    simp only [sequencer.while_loop] at h
    split_ifs at h
    · obtain ⟨hi, hN, hC, hB, hS⟩ := ih _ _ (sub_beat_inv s hinv) h
      rw [sub_beat_eq] at hN hC hB hS
      exact ⟨hi, hN, hC, hB, hS⟩
    · simp only [Option.some.injEq] at h
      subst h
      exact ⟨hinv, rfl, rfl, rfl, rfl⟩

theorem wstring_at_valid (p : List Char) (i : Int) (h0 : 0 ≤ i) (h1 : i < (p.length : Int)) :
    ∃ ch, wstring_at p i = some ch := by
  have hlt : i.toNat < p.length := by
    have := Int.toNat_of_nonneg h0
    omega
  refine ⟨p.get ⟨i.toNat, hlt⟩, ?_⟩
  simp [wstring_at, not_lt.mpr h0, List.getElem?_eq_getElem hlt]

theorem Update_inv (fuel : ℕ) (s s1 : sequencer) (e : FTYPE) (r : Int)
    (hinv : sequencer_inv s) (h : sequencer.Update fuel s e = some (r, s1)) :
    sequencer_inv s1 ∧ s1.nTotalBeats = s.nTotalBeats ∧ s1.vecChannel = s.vecChannel
      ∧ s1.nBeats = s.nBeats ∧ s1.nSubBeats = s.nSubBeats := by
  rw [Update_eq] at h
  cases hw : sequencer.while_loop fuel
      { s with vecNotes := [], fAccumulate := s.fAccumulate + e } with
  | none => rw [hw] at h; simp at h
  | some s3 =>
    rw [hw] at h
    simp only [Option.map_some', Option.some.injEq, Prod.mk.injEq] at h
    obtain ⟨_, hs⟩ := h
    subst hs
    exact while_loop_inv fuel { s with vecNotes := [], fAccumulate := s.fAccumulate + e } s3
      hinv hw

theorem Updates_inv (fuel : ℕ) (ts : List FTYPE) :
    ∀ (s s2 : sequencer) (ks : List Int), sequencer_inv s →
      sequencer.Updates fuel s ts = some (ks, s2) →
      sequencer_inv s2 ∧ s2.nTotalBeats = s.nTotalBeats ∧ s2.vecChannel = s.vecChannel
        ∧ s2.nBeats = s.nBeats ∧ s2.nSubBeats = s.nSubBeats := by
  induction ts with
  | nil =>
    intro s s2 ks hinv h
    simp only [sequencer.Updates, Option.some.injEq, Prod.mk.injEq] at h
    obtain ⟨_, hs⟩ := h
    subst hs
    exact ⟨hinv, rfl, rfl, rfl, rfl⟩
  | cons t ts ih =>
    intro s s2 ks hinv h
    simp only [sequencer.Updates] at h
    cases hu : sequencer.Update fuel s t with
    | none => rw [hu] at h; simp at h
    | some p =>
      obtain ⟨k, s1⟩ := p
      rw [hu] at h
      simp only [] at h
      obtain ⟨hi1, hN1, hC1, hB1, hS1⟩ := Update_inv fuel s s1 t k hinv hu
      cases hr : sequencer.Updates fuel s1 ts with
      | none => rw [hr] at h; simp at h
      | some q =>
        obtain ⟨ks2, s3⟩ := q
        rw [hr] at h
        simp only [Option.some.injEq, Prod.mk.injEq] at h
        obtain ⟨_, hs⟩ := h
        subst hs
        obtain ⟨hi2, hN2, hC2, hB2, hS2⟩ := ih s1 s3 ks2 hi1 hr
        exact ⟨hi2, hN2.trans hN1, hC2.trans hC1, hB2.trans hB1, hS2.trans hS1⟩

/-- C22. If every channel has a pattern of `N = beats * sub_beats ≥ 1` marks and
`0 ≤ current_step < N` before the call, then every pattern position read by `Update`, for
every elapsed time and however long the loop runs, is a valid index of the pattern of its
channel (`0 ≤ index < N`), and `0 ≤ current_step < N` holds again after the call, with the
same patterns and the same `N`, hence after any number of calls; it holds in the state
built by the constructor. -/
theorem C22_pattern_reads_valid (s : sequencer) (e : FTYPE)
    (hN : s.nTotalBeats = s.nBeats * s.nSubBeats) (_hN1 : 1 ≤ s.nBeats * s.nSubBeats)
    (hpat : ∀ ch ∈ s.vecChannel, (ch.sBeat.length : Int) = s.nBeats * s.nSubBeats)
    (hc0 : 0 ≤ s.nCurrentBeat) (hc1 : s.nCurrentBeat < s.nBeats * s.nSubBeats) :
    (∀ fuel, ∀ r ∈ sequencer.Update_reads fuel s e,
        r.1 ∈ s.vecChannel ∧ 0 ≤ r.2 ∧ r.2 < s.nBeats * s.nSubBeats
          ∧ r.2 < (r.1.sBeat.length : Int) ∧ ∃ ch, wstring_at r.1.sBeat r.2 = some ch)
      ∧ (∀ fuel r s1, sequencer.Update fuel s e = some (r, s1) →
          0 ≤ s1.nCurrentBeat ∧ s1.nCurrentBeat < s1.nBeats * s1.nSubBeats
            ∧ s1.nTotalBeats = s1.nBeats * s1.nSubBeats
            ∧ ∀ ch ∈ s1.vecChannel, (ch.sBeat.length : Int) = s1.nBeats * s1.nSubBeats)
      ∧ (∀ fuel ts ks s2, sequencer.Updates fuel s ts = some (ks, s2) →
          0 ≤ s2.nCurrentBeat ∧ s2.nCurrentBeat < s2.nBeats * s2.nSubBeats)
      ∧ (∀ (tempo : FTYPE) (beats subbeats : Int), 1 ≤ beats * subbeats →
          0 ≤ (sequencer.new tempo beats subbeats).nCurrentBeat
            ∧ (sequencer.new tempo beats subbeats).nCurrentBeat
              < (sequencer.new tempo beats subbeats).nBeats
                * (sequencer.new tempo beats subbeats).nSubBeats
            ∧ (sequencer.new tempo beats subbeats).nTotalBeats
              = (sequencer.new tempo beats subbeats).nBeats
                * (sequencer.new tempo beats subbeats).nSubBeats) := by
  have hinv : sequencer_inv s := ⟨hc0, by rw [hN]; exact hc1, fun ch hch => by
    rw [hN]; exact hpat ch hch⟩
  refine ⟨?_, ?_, ?_, ?_⟩
  · intro fuel r hr
    have hinv2 : sequencer_inv
        { s with vecNotes := [], fAccumulate := s.fAccumulate + e } := hinv
    obtain ⟨h1, h2, h3, h4⟩ := while_loop_reads_valid fuel _ hinv2 r hr
    exact ⟨h1, h2, by rw [← hN]; exact h3, h4, wstring_at_valid _ _ h2 h4⟩
  · intro fuel r s1 h
    obtain ⟨⟨h0, h1, hp⟩, hT, _, hB, hS⟩ := Update_inv fuel s s1 e r hinv h
    have hT1 : s1.nTotalBeats = s1.nBeats * s1.nSubBeats := by rw [hT, hB, hS, hN]
    exact ⟨h0, by rw [← hT1]; exact h1, hT1, fun ch hch => by rw [← hT1]; exact hp ch hch⟩
  · intro fuel ts ks s2 h
    obtain ⟨⟨h0, h1, _⟩, hT, _, hB, hS⟩ := Updates_inv fuel ts s s2 ks hinv h
    have hT1 : s2.nTotalBeats = s2.nBeats * s2.nSubBeats := by rw [hT, hB, hS, hN]
    exact ⟨h0, by rw [← hT1]; exact h1⟩
  · intro tempo beats subbeats h
    simp only [sequencer.new]
    exact ⟨le_refl _, by linarith, mul_comm _ _⟩

theorem seq_x_reads :
    sequencer.Update_reads 2 (seq_x none) 0.3
      = [({ instrument := none, sBeat := ['X', '.', '.', '.'] }, 1),
         ({ instrument := none, sBeat := ['X', '.', '.', '.'] }, 2)] := by
  norm_num [sequencer.Update_reads, sequencer.while_loop_reads, sub_beat_reads_eq,
    sub_beat_eq, next_step, seq_x, sequencer.new, sequencer.AddInstrument, sequencer.setBeat,
    List.modify]

theorem C22_pattern_reads_valid_witness :
    sequencer.Update_reads 2 (seq_x none) 0.3 ≠ []
      ∧ (∀ r ∈ sequencer.Update_reads 2 (seq_x none) 0.3,
          r.1 ∈ (seq_x none).vecChannel ∧ 0 ≤ r.2
            ∧ r.2 < (seq_x none).nBeats * (seq_x none).nSubBeats
            ∧ r.2 < (r.1.sBeat.length : Int) ∧ ∃ ch, wstring_at r.1.sBeat r.2 = some ch) :=
  ⟨by rw [seq_x_reads]; simp,
   (C22_pattern_reads_valid (seq_x none) 0.3
      (by norm_num [seq_x, sequencer.new, sequencer.AddInstrument, sequencer.setBeat])
      (by norm_num [seq_x, sequencer.new, sequencer.AddInstrument, sequencer.setBeat])
      (by simp [seq_x, sequencer.new, sequencer.AddInstrument, sequencer.setBeat,
        List.modify])
      (by norm_num [seq_x, sequencer.new, sequencer.AddInstrument, sequencer.setBeat])
      (by norm_num [seq_x, sequencer.new, sequencer.AddInstrument, sequencer.setBeat])).1 2⟩

/-! ## Splitting the elapsed time -/

theorem step_after_add (N c : Int) (k j : ℕ) :
    step_after N (step_after N c k) j = step_after N c (k + j) := by
  induction j with
  | zero => rfl
  | succ j ih => rw [← Nat.add_assoc, step_after, step_after, ih]

theorem triggered_range_add (chs : List channel) (N c : Int) (k1 k2 : ℕ) :
    (List.range (k1 + k2)).flatMap (fun j => triggered chs (step_after N c (j + 1)))
      = (List.range k1).flatMap (fun j => triggered chs (step_after N c (j + 1)))
        ++ (List.range k2).flatMap
            (fun j => triggered chs (step_after N (step_after N c k1) (j + 1))) := by
  induction k2 with
  | zero => simp
  | succ k2 ih =>
    rw [← Nat.add_assoc, List.range_succ, List.flatMap_append, ih, List.range_succ,
      List.flatMap_append, List.append_assoc]
    simp only [List.flatMap_singleton, List.flatMap_nil, List.append_nil, step_after_add]
    rfl

/-- The result of `Update` when the sub-beat duration is positive. -/
theorem Update_result (s : sequencer) (e : FTYPE) (hd : 0 < s.fBeatTime) (fuel : ℕ)
    (hf : ⌊(s.fAccumulate + e) / s.fBeatTime⌋.toNat ≤ fuel) :
    sequencer.Update fuel s e
      = some (((expected_notes s ⌊(s.fAccumulate + e) / s.fBeatTime⌋.toNat).length : Int),
          { s with
            fAccumulate := s.fAccumulate + e
              - ⌊(s.fAccumulate + e) / s.fBeatTime⌋.toNat * s.fBeatTime,
            nCurrentBeat := step_after s.nTotalBeats s.nCurrentBeat
              ⌊(s.fAccumulate + e) / s.fBeatTime⌋.toNat,
            vecNotes := expected_notes s ⌊(s.fAccumulate + e) / s.fBeatTime⌋.toNat }) := by
  obtain ⟨hb1, hb2⟩ := floor_bounds (s.fAccumulate + e) s.fBeatTime hd
  obtain ⟨hr1, _⟩ := while_loop_run ⌊(s.fAccumulate + e) / s.fBeatTime⌋.toNat
    { s with vecNotes := [], fAccumulate := s.fAccumulate + e } hd hb1 hb2
  rw [Update_eq, hr1 fuel hf, sub_beat_iterate]
  simp [expected_notes]

theorem floor_split (a d e1 e2 : FTYPE) (hd : 0 < d) (h1 : 0 ≤ a + e1) (h2 : 0 ≤ e2) :
    ⌊(a + e1) / d⌋.toNat
        + ⌊(a + e1 - ⌊(a + e1) / d⌋.toNat * d + e2) / d⌋.toNat
      = ⌊(a + e1 + e2) / d⌋.toNat := by
  have hk1 : 0 ≤ ⌊(a + e1) / d⌋ := Int.floor_nonneg.mpr (div_nonneg h1 hd.le)
  have hmono : ⌊(a + e1) / d⌋ ≤ ⌊(a + e1 + e2) / d⌋ :=
    Int.floor_mono (div_le_div_of_nonneg_right (by linarith) hd.le)
  have hx : (a + e1 - ⌊(a + e1) / d⌋.toNat * d + e2) / d
      = (a + e1 + e2) / d - (⌊(a + e1) / d⌋.toNat : ℕ) := by
    field_simp
    ring
  rw [hx, Int.floor_sub_nat]
  omega

/-- C23. For a positive sub-beat duration, an accumulator `≥ 0` and elapsed times
`e1, e2 ≥ 0`: `Update(e1)` followed by `Update(e2)` leaves the accumulator and the
current step (and every field but the output list) that a single `Update(e1 + e2)`
leaves, and the notes emitted by the first call followed by those emitted by the second
are, in order, the notes emitted by the single call; the returned counts add up. -/
theorem C23_update_split_elapsed (s : sequencer) (e1 e2 : FTYPE) (fuel : ℕ)
    (hd : 0 < s.fBeatTime) (ha : 0 ≤ s.fAccumulate) (h1 : 0 ≤ e1) (h2 : 0 ≤ e2)
    (hf : ⌊(s.fAccumulate + (e1 + e2)) / s.fBeatTime⌋.toNat ≤ fuel) :
    ∃ (r1 r2 r12 : Int) (s1 s2 s12 : sequencer),
      sequencer.Update fuel s e1 = some (r1, s1)
        ∧ sequencer.Update fuel s1 e2 = some (r2, s2)
        ∧ sequencer.Update fuel s (e1 + e2) = some (r12, s12)
        ∧ s2.fAccumulate = s12.fAccumulate
        ∧ s2.nCurrentBeat = s12.nCurrentBeat
        ∧ s1.vecNotes ++ s2.vecNotes = s12.vecNotes
        ∧ r1 + r2 = r12
        ∧ s2 = { s12 with vecNotes := s2.vecNotes } := by
  have hsplit := floor_split s.fAccumulate s.fBeatTime e1 e2 hd (by linarith) h2
  have hassoc : s.fAccumulate + (e1 + e2) = s.fAccumulate + e1 + e2 := by ring
  rw [hassoc] at hf
  have hf1 : ⌊(s.fAccumulate + e1) / s.fBeatTime⌋.toNat ≤ fuel := by omega
  have hU1 := Update_result s e1 hd fuel hf1
  have hU2 := Update_result
    { s with
      fAccumulate := s.fAccumulate + e1
        - ⌊(s.fAccumulate + e1) / s.fBeatTime⌋.toNat * s.fBeatTime,
      nCurrentBeat := step_after s.nTotalBeats s.nCurrentBeat
        ⌊(s.fAccumulate + e1) / s.fBeatTime⌋.toNat,
      vecNotes := expected_notes s ⌊(s.fAccumulate + e1) / s.fBeatTime⌋.toNat }
    e2 hd fuel (by simp only []; omega)
  have hU12 := Update_result s (e1 + e2) hd fuel (by rw [hassoc]; exact hf)
  have hacc : s.fAccumulate + e1
        - ⌊(s.fAccumulate + e1) / s.fBeatTime⌋.toNat * s.fBeatTime + e2
        - ⌊(s.fAccumulate + e1 - ⌊(s.fAccumulate + e1) / s.fBeatTime⌋.toNat * s.fBeatTime
            + e2) / s.fBeatTime⌋.toNat * s.fBeatTime
      = s.fAccumulate + (e1 + e2)
        - ⌊(s.fAccumulate + (e1 + e2)) / s.fBeatTime⌋.toNat * s.fBeatTime := by
    rw [hassoc, ← hsplit]
    push_cast
    ring
  have hstep : step_after s.nTotalBeats
        (step_after s.nTotalBeats s.nCurrentBeat ⌊(s.fAccumulate + e1) / s.fBeatTime⌋.toNat)
        ⌊(s.fAccumulate + e1 - ⌊(s.fAccumulate + e1) / s.fBeatTime⌋.toNat * s.fBeatTime
            + e2) / s.fBeatTime⌋.toNat
      = step_after s.nTotalBeats s.nCurrentBeat
          ⌊(s.fAccumulate + (e1 + e2)) / s.fBeatTime⌋.toNat := by
    rw [step_after_add, hassoc, hsplit]
  have hnotes : expected_notes s ⌊(s.fAccumulate + e1) / s.fBeatTime⌋.toNat
        ++ expected_notes
            { s with
              fAccumulate := s.fAccumulate + e1
                - ⌊(s.fAccumulate + e1) / s.fBeatTime⌋.toNat * s.fBeatTime,
              nCurrentBeat := step_after s.nTotalBeats s.nCurrentBeat
                ⌊(s.fAccumulate + e1) / s.fBeatTime⌋.toNat,
              vecNotes := expected_notes s ⌊(s.fAccumulate + e1) / s.fBeatTime⌋.toNat }
            ⌊(s.fAccumulate + e1 - ⌊(s.fAccumulate + e1) / s.fBeatTime⌋.toNat * s.fBeatTime
                + e2) / s.fBeatTime⌋.toNat
      = expected_notes s ⌊(s.fAccumulate + (e1 + e2)) / s.fBeatTime⌋.toNat := by
    rw [hassoc, ← hsplit]
    simp only [expected_notes]
    rw [triggered_range_add]
  refine ⟨_, _, _, _, _, _, hU1, hU2, hU12, hacc, hstep, hnotes, ?_, ?_⟩
  · have hlen := congrArg List.length hnotes
    rw [List.length_append] at hlen
    exact_mod_cast hlen
  · simp only [sequencer.mk.injEq, and_true, true_and]
    exact ⟨hacc, hstep⟩

theorem seq_x_floor_split :
    ⌊((seq_x none).fAccumulate + (0.3 + 0.2)) / (seq_x none).fBeatTime⌋.toNat ≤ 4 := by
  have h : ⌊((seq_x none).fAccumulate + (0.3 + 0.2)) / (seq_x none).fBeatTime⌋ = 4 := by
    rw [seq_x_fAccumulate, seq_x_fBeatTime, Int.floor_eq_iff]
    norm_num
  rw [h]
  rfl

theorem C23_update_split_elapsed_witness :
    ∃ (r1 r2 r12 : Int) (s1 s2 s12 : sequencer),
      sequencer.Update 4 (seq_x none) 0.3 = some (r1, s1)
        ∧ sequencer.Update 4 s1 0.2 = some (r2, s2)
        ∧ sequencer.Update 4 (seq_x none) (0.3 + 0.2) = some (r12, s12)
        ∧ s2.fAccumulate = s12.fAccumulate
        ∧ s2.nCurrentBeat = s12.nCurrentBeat
        ∧ s1.vecNotes ++ s2.vecNotes = s12.vecNotes
        ∧ r1 + r2 = r12
        ∧ s2 = { s12 with vecNotes := s2.vecNotes } :=
  C23_update_split_elapsed (seq_x none) 0.3 0.2 4 (by norm_num [seq_x_fBeatTime])
    (by norm_num [seq_x_fAccumulate]) (by norm_num) (by norm_num) seq_x_floor_split

/-! ## The range of the scale -/

theorem semitone_one_lt : 1 < semitone := by norm_num [semitone]

theorem semitone_pow_12_lt : semitone ^ (12 : ℕ) < 2 := by norm_num [semitone]

theorem semitone_npow_le (n k : ℕ) (h : n ≤ 12 * k) : semitone ^ n ≤ 2 ^ k := by
  calc semitone ^ n ≤ semitone ^ (12 * k) := pow_le_pow_right₀ semitone_one_lt.le h
    _ = (semitone ^ (12 : ℕ)) ^ k := pow_mul _ _ _
    _ ≤ 2 ^ k := pow_le_pow_left₀ (pow_nonneg semitone_pos.le _) semitone_pow_12_lt.le k

/-- The semitone factor raised to a power of magnitude at most `12 * k` lies between
`2 ^ (-k)` and `2 ^ k`. -/
theorem semitone_zpow_bounds (z : ℤ) (k : ℕ) (h1 : -(12 * k : ℤ) ≤ z) (h2 : z ≤ 12 * k) :
    1 / 2 ^ k ≤ semitone ^ z ∧ semitone ^ z ≤ 2 ^ k := by
  have h2k : (1 : FTYPE) ≤ 2 ^ k := one_le_pow₀ (by norm_num)
  rcases le_or_lt 0 z with hz | hz
  · obtain ⟨n, rfl⟩ := Int.eq_ofNat_of_zero_le hz
    rw [zpow_natCast]
    have hn : n ≤ 12 * k := by omega
    refine ⟨?_, semitone_npow_le n k hn⟩
    calc (1 : FTYPE) / 2 ^ k ≤ 1 := by
          rw [div_le_one (by positivity)]; exact h2k
      _ ≤ semitone ^ n := one_le_pow₀ semitone_one_lt.le
  · obtain ⟨n, hn⟩ := Int.eq_ofNat_of_zero_le (by omega : 0 ≤ -z)
    have hz' : z = -(n : ℤ) := by omega
    rw [hz', zpow_neg, zpow_natCast]
    have hnk : n ≤ 12 * k := by omega
    have hle := semitone_npow_le n k hnk
    have hge : (1 : FTYPE) ≤ semitone ^ n := one_le_pow₀ semitone_one_lt.le
    have hpos : (0 : FTYPE) < semitone ^ n := by positivity
    constructor
    · rw [one_div]
      exact inv_anti₀ hpos hle
    · calc (semitone ^ n)⁻¹ ≤ 1 := inv_le_one_of_one_le₀ hge
        _ ≤ 2 ^ k := h2k

/-- C16 (amended). For every note index and every scale selector, `scale` returns the
value it returns for `SCALE_DEFAULT`, `8 * r ^ n`: the selector is ignored.  For a note
index between -12000 and 12000 that value lies between `8 / 2 ^ 1000` and `8 * 2 ^ 1000`,
inside the range of the doubles, so it is not 0. -/
theorem C16_scale_ignores_selector (nNoteID nScaleID : Int) :
    scale nNoteID nScaleID = scale nNoteID SCALE_DEFAULT
      ∧ scale nNoteID nScaleID = 8 * semitone ^ nNoteID
      ∧ (-12000 ≤ nNoteID → nNoteID ≤ 12000 →
          8 / 2 ^ 1000 ≤ scale nNoteID nScaleID ∧ scale nNoteID nScaleID ≤ 8 * 2 ^ 1000) := by
  refine ⟨rfl, rfl, fun h1 h2 => ?_⟩
  obtain ⟨hlo, hhi⟩ := semitone_zpow_bounds nNoteID 1000 (by push_cast; linarith)
    (by push_cast; linarith)
  rw [scale_eq]
  constructor
  · calc (8 : FTYPE) / 2 ^ 1000 = 8 * (1 / 2 ^ 1000) := by ring
      _ ≤ 8 * semitone ^ nNoteID := mul_le_mul_of_nonneg_left hlo (by norm_num)
  · exact mul_le_mul_of_nonneg_left hhi (by norm_num)

theorem C16_scale_ignores_selector_witness :
    8 / 2 ^ 1000 ≤ scale 64 1 ∧ scale 64 1 ≤ 8 * 2 ^ 1000 :=
  (C16_scale_ignores_selector 64 1).2.2 (by norm_num) (by norm_num)

/-! ## Overflow in the bell -/

theorem xfloat_mul_nan_right (a : xfloat) : a.mul .nan = .nan := by
  cases a <;> rfl

theorem xfloat_add_nan_right (a : xfloat) : a.add .nan = .nan := by
  cases a <;> rfl

theorem xfloat_mul_r_nan_right (a : xfloat) : a.mul_r .nan = .nan := by
  simp [xfloat.mul_r, xfloat_mul_nan_right, xfloat.range]

theorem xfloat_mul_r_nan_left (a : xfloat) : xfloat.mul_r .nan a = .nan := by
  simp [xfloat.mul_r, xfloat.mul, xfloat.range]

theorem xfloat_add_r_nan_right (a : xfloat) : a.add_r .nan = .nan := by
  simp [xfloat.add_r, xfloat_add_nan_right, xfloat.range]

theorem xfloat_add_r_nan_left (a : xfloat) : xfloat.add_r .nan a = .nan := by
  simp [xfloat.add_r, xfloat.add, xfloat.range]

theorem semitone_npow_12300 : DBL_OVERFLOW ≤ semitone ^ (12300 : ℕ) := by
  norm_num [semitone, DBL_OVERFLOW]

/-- From the exponent 12300 on the power of the semitone factor overflows. -/
theorem semitone_zpow_overflow (z : ℤ) (hz : 12300 ≤ z) : DBL_OVERFLOW ≤ semitone ^ z := by
  have h1 : semitone ^ ((12300 : ℕ) : ℤ) ≤ semitone ^ z :=
    zpow_le_zpow_right₀ semitone_one_lt.le (by push_cast; exact hz)
  rw [zpow_natCast] at h1
  exact le_trans semitone_npow_12300 h1

theorem range_overflow (q : ℚ) (h : DBL_OVERFLOW ≤ q) : (xfloat.fin q).range = .pinf := by
  simp only [xfloat.range, if_pos h]

theorem scale_x_overflow (nNoteID nScaleID : Int) (h : 12300 ≤ nNoteID) :
    scale_x nNoteID nScaleID = .pinf := by
  have hs : (1.0594630943592952645618252949463 : ℚ) = semitone := rfl
  unfold scale_x pow_x
  rw [hs, range_overflow _ (semitone_zpow_overflow nNoteID h)]
  simp only [xfloat.mul_r, xfloat.mul, xfloat.signed_inf, xfloat.range]
  norm_num

/-- An infinite frequency at zero elapsed time gives a NaN phase, for every library. -/
theorem w_x_pinf_mul_zero (m : Libm) : (w_x m .pinf).mul_r (.fin 0) = .nan := by
  simp only [w_x, xfloat.mul_r, xfloat.mul, xfloat.signed_inf, xfloat.range]
  norm_num
  rcases lt_trichotomy m.PI 0 with h | h | h
  · simp [h.ne, not_lt.mpr h.le, xfloat.neg, xfloat.mul, xfloat.signed_inf, xfloat.range]
  · simp [h, xfloat.mul, xfloat.range]
  · simp [h.ne', h, xfloat.mul, xfloat.signed_inf, xfloat.range]

/-- A bell note of index at least 12288 rendered at its on time gives a NaN sample. -/
theorem bell_sound_x_overflow (m : Libm) (n : note) (h : 12288 ≤ n.id) :
    instrument_bell.sound_x m instrument_bell n.on_ n = .nan := by
  have hsc : scale_x (n.id + 12) SCALE_DEFAULT = .pinf :=
    scale_x_overflow _ _ (by linarith)
  simp only [instrument_bell.sound_x, sub_self, hsc, osc_sine_x, w_x_pinf_mul_zero,
    xfloat_add_r_nan_left, Libm.sin_x, xfloat_mul_r_nan_right, xfloat_mul_r_nan_left]

theorem range_fin (q : ℚ) (h : |q| ≤ 2 ^ 1010) : (xfloat.fin q).range = .fin q := by
  have hB : (2 : ℚ) ^ 1010 < DBL_OVERFLOW := by norm_num [DBL_OVERFLOW]
  obtain ⟨h1, h2⟩ := abs_le.mp h
  have h3 : ¬ DBL_OVERFLOW ≤ q := not_le.mpr (lt_of_le_of_lt h2 hB)
  have h4 : ¬ q ≤ -DBL_OVERFLOW := not_le.mpr (by linarith)
  simp only [xfloat.range, if_neg h3, if_neg h4]

theorem mul_r_fin (a b : ℚ) (h : |a * b| ≤ 2 ^ 1010) :
    (xfloat.fin a).mul_r (.fin b) = .fin (a * b) := by
  simp only [xfloat.mul_r, xfloat.mul, range_fin _ h]

theorem add_r_fin (a b : ℚ) (h : |a + b| ≤ 2 ^ 1010) :
    (xfloat.fin a).add_r (.fin b) = .fin (a + b) := by
  simp only [xfloat.add_r, xfloat.add, range_fin _ h]

/-- For a note index of magnitude at most 12036 the frequency does not overflow: it is
the frequency of exact arithmetic, at most `2 ^ 1006`. -/
theorem scale_x_fin (nNoteID nScaleID : Int) (h1 : -12036 ≤ nNoteID) (h2 : nNoteID ≤ 12036) :
    scale_x nNoteID nScaleID = .fin (scale nNoteID nScaleID)
      ∧ |scale nNoteID nScaleID| ≤ 2 ^ 1006 := by
  have hs : (1.0594630943592952645618252949463 : ℚ) = semitone := rfl
  obtain ⟨_, hhi⟩ := semitone_zpow_bounds nNoteID 1003 (by push_cast; linarith)
    (by push_cast; linarith)
  have hpos : 0 < semitone ^ nNoteID := zpow_pos semitone_pos _
  have hp : |semitone ^ nNoteID| ≤ 2 ^ 1010 := by
    rw [abs_of_pos hpos]
    exact le_trans hhi (pow_le_pow_right₀ (by norm_num) (by norm_num))
  have h8 : |8 * semitone ^ nNoteID| ≤ 2 ^ 1006 := by
    rw [abs_of_pos (by positivity)]
    calc 8 * semitone ^ nNoteID ≤ 8 * 2 ^ 1003 := by linarith
      _ = 2 ^ 1006 := by norm_num
  refine ⟨?_, by rw [scale_eq]; exact h8⟩
  unfold scale_x pow_x
  rw [hs, range_fin _ hp,
    mul_r_fin _ _ (le_trans h8 (pow_le_pow_right₀ (by norm_num) (by norm_num))), scale_eq]

theorem w_x_fin (m : Libm) (h : ℚ) (hPI : |m.PI| ≤ 4) (hh : |h| ≤ 2 ^ 1006) :
    w_x m (.fin h) = .fin (w m h) ∧ |w m h| ≤ 2 ^ 1009 := by
  have h2 : |h * 2| ≤ 2 ^ 1007 := by
    rw [abs_mul, abs_of_pos (by norm_num : (0 : ℚ) < 2)]
    calc |h| * 2 ≤ 2 ^ 1006 * 2 := by linarith
      _ = 2 ^ 1007 := by norm_num
  have h3 : |h * 2 * m.PI| ≤ 2 ^ 1009 := by
    rw [abs_mul]
    calc |h * 2| * |m.PI| ≤ 2 ^ 1007 * 4 :=
          mul_le_mul h2 hPI (abs_nonneg _) (by positivity)
      _ = 2 ^ 1009 := by norm_num
  refine ⟨?_, h3⟩
  unfold w_x w
  rw [mul_r_fin _ _ (le_trans h2 (pow_le_pow_right₀ (by norm_num) (by norm_num))),
    mul_r_fin _ _ (le_trans h3 (pow_le_pow_right₀ (by norm_num) (by norm_num)))]

/-- At zero elapsed time and for a frequency that does not overflow, the sine arm of the
oscillator on doubles is the sine arm of exact arithmetic. -/
theorem osc_sine_x_zero (m : Libm) (hm : m.SinBounded) (hPI : |m.PI| ≤ 4)
    (h lfoH lfoA : ℚ) (hh : |h| ≤ 2 ^ 1006) (hl : |lfoH| ≤ 2 ^ 1006) (hA : |lfoA| ≤ 1) :
    osc_sine_x m (.fin 0) (.fin h) (.fin lfoH) (.fin lfoA)
      = .fin (m.sin (w m h * 0 + lfoA * h * m.sin (w m lfoH * 0))) := by
  obtain ⟨hw1, hw1b⟩ := w_x_fin m h hPI hh
  obtain ⟨hw2, hw2b⟩ := w_x_fin m lfoH hPI hl
  have hz : ∀ x : ℚ, |x * 0| ≤ (2 : ℚ) ^ 1010 := fun x => by
    rw [mul_zero, abs_zero]; positivity
  have hAh : |lfoA * h| ≤ 2 ^ 1006 := by
    rw [abs_mul]
    calc |lfoA| * |h| ≤ 1 * 2 ^ 1006 := mul_le_mul hA hh (abs_nonneg _) (by norm_num)
      _ = 2 ^ 1006 := by norm_num
  have hsin : |m.sin (w m lfoH * 0)| ≤ 1 := abs_le.mpr (hm _)
  have hAhs : |lfoA * h * m.sin (w m lfoH * 0)| ≤ 2 ^ 1006 := by
    rw [abs_mul]
    calc |lfoA * h| * |m.sin (w m lfoH * 0)| ≤ 2 ^ 1006 * 1 :=
          mul_le_mul hAh hsin (abs_nonneg _) (by positivity)
      _ = 2 ^ 1006 := by norm_num
  have hsum : |w m h * 0 + lfoA * h * m.sin (w m lfoH * 0)| ≤ 2 ^ 1010 := by
    rw [mul_zero, zero_add]
    exact le_trans hAhs (pow_le_pow_right₀ (by norm_num) (by norm_num))
  unfold osc_sine_x
  rw [hw1, hw2, mul_r_fin _ _ (hz _), mul_r_fin _ _ (hz _)]
  simp only [Libm.sin_x]
  rw [mul_r_fin _ _ (le_trans hAh (pow_le_pow_right₀ (by norm_num) (by norm_num))),
    mul_r_fin _ _ (le_trans hAhs (pow_le_pow_right₀ (by norm_num) (by norm_num))),
    add_r_fin _ _ hsum]

theorem bell_amplitude_at_on (n : note) (h : n.on_ > n.off) :
    env n.on_ instrument_bell.env n.on_ n.off = 0 := by
  unfold env
  rw [amplitude_held _ _ _ _ h, sub_self, stage_attack _ _ _
    (by norm_num [instrument_bell, envelope_adsr.new])
    (by norm_num [instrument_bell, envelope_adsr.new])]
  norm_num

/-- The mix of the bell at level 0: three partials of magnitude at most 1 give a finite
sound, and the sample is 0. -/
theorem bell_mix_x_zero (s1 s2 s3 : ℚ) (h1 : |s1| ≤ 1) (h2 : |s2| ≤ 1) (h3 : |s3| ≤ 1) :
    ((xfloat.fin 0).mul_r
        ((((xfloat.fin 1.00).mul_r (.fin s1)).add_r ((xfloat.fin 0.50).mul_r (.fin s2))).add_r
          ((xfloat.fin 0.25).mul_r (.fin s3)))).mul_r (.fin instrument_bell.dVolume)
      = .fin 0 := by
  have hsmall : ∀ x : ℚ, |x| ≤ 2 → |x| ≤ 2 ^ 1010 := fun x hx =>
    le_trans hx (by
      calc (2 : ℚ) = 2 ^ 1 := by norm_num
        _ ≤ 2 ^ 1010 := pow_le_pow_right₀ (by norm_num) (by norm_num))
  obtain ⟨a1, b1⟩ := abs_le.mp h1
  obtain ⟨a2, b2⟩ := abs_le.mp h2
  obtain ⟨a3, b3⟩ := abs_le.mp h3
  rw [mul_r_fin _ _ (hsmall _ (abs_le.mpr ⟨by linarith, by linarith⟩)),
    mul_r_fin _ _ (hsmall _ (abs_le.mpr ⟨by linarith, by linarith⟩)),
    mul_r_fin _ _ (hsmall _ (abs_le.mpr ⟨by linarith, by linarith⟩)),
    add_r_fin _ _ (hsmall _ (abs_le.mpr ⟨by linarith, by linarith⟩)),
    add_r_fin _ _ (hsmall _ (abs_le.mpr ⟨by linarith, by linarith⟩)),
    mul_r_fin _ _ (hsmall _ (abs_le.mpr ⟨by linarith, by linarith⟩)),
    mul_r_fin _ _ (hsmall _ (abs_le.mpr ⟨by norm_num, by norm_num⟩))]
  norm_num

/-- C13 (counterexample). For the held bell note of index 20000 rendered at its on time
the envelope amplitude is 0 but the frequency `scale(id + 12)` overflows to an infinity,
the phase `w(f) * 0` is a NaN and the sample is a NaN, for every library: no finite
sample is returned. -/
theorem C13_bell_high_note_nan :
    high_note.on_ > high_note.off
      ∧ instrument_bell.env.amplitude_x high_note.on_ high_note.on_ high_note.off = .fin 0
      ∧ instrument_bell.sound_x libm_model instrument_bell high_note.on_ high_note = .nan
      ∧ ¬ ∃ (m : Libm) (q : ℚ),
          instrument_bell.sound_x m instrument_bell high_note.on_ high_note = .fin q := by
  have hheld : high_note.on_ > high_note.off := by norm_num [high_note]
  have hid : (12288 : ℤ) ≤ high_note.id := by norm_num [high_note]
  refine ⟨hheld, ?_, bell_sound_x_overflow libm_model high_note hid, ?_⟩
  · rw [amplitude_x_eq _ _ _ _ (bell_divisors _ _ _)]
    have h0 := bell_amplitude_at_on high_note hheld
    unfold env at h0
    rw [h0]
  · rintro ⟨m, q, hq⟩
    rw [bell_sound_x_overflow m high_note hid] at hq
    cases hq

/-- C13 (amended). For every note index between -12000 and 12000 and every held note
(`on > off`), with a library sine of values in `[-1, 1]` and `|PI| ≤ 4`, the Bell
evaluated at `time = on` has envelope amplitude 0 and returns the finite sample 0, on
doubles with overflow as in exact arithmetic. -/
theorem C13_bell_silent_at_on_time (m : Libm) (n : note) (b : Bool) (seed : ℕ)
    (hm : m.SinBounded) (hPI : |m.PI| ≤ 4) (h : n.on_ > n.off)
    (hlo : -12000 ≤ n.id) (hhi : n.id ≤ 12000) :
    instrument_bell.env.amplitude_x n.on_ n.on_ n.off = .fin 0
      ∧ instrument_bell.sound_x m instrument_bell n.on_ n = .fin 0
      ∧ env n.on_ instrument_bell.env n.on_ n.off = 0
      ∧ (instrument_base.sound m instrument_bell n.on_ n b seed).1 = 0 := by
  have h0 := bell_amplitude_at_on n h
  have hx : instrument_bell.env.amplitude_x n.on_ n.on_ n.off = .fin 0 := by
    rw [amplitude_x_eq _ _ _ _ (bell_divisors _ _ _)]
    unfold env at h0
    rw [h0]
  refine ⟨hx, ?_, h0, ?_⟩
  · obtain ⟨hs1, hb1⟩ := scale_x_fin (n.id + 12) SCALE_DEFAULT (by linarith) (by linarith)
    obtain ⟨hs2, hb2⟩ := scale_x_fin (n.id + 24) SCALE_DEFAULT (by linarith) (by linarith)
    obtain ⟨hs3, hb3⟩ := scale_x_fin (n.id + 36) SCALE_DEFAULT (by linarith) (by linarith)
    have hc5 : |(5.0 : ℚ)| ≤ 2 ^ 1006 := by
      rw [abs_of_pos (by norm_num)]
      calc (5.0 : ℚ) ≤ 2 ^ 3 := by norm_num
        _ ≤ 2 ^ 1006 := pow_le_pow_right₀ (by norm_num) (by norm_num)
    have hc0 : |(0 : ℚ)| ≤ 2 ^ 1006 := by rw [abs_zero]; positivity
    have hA1 : |(0.001 : ℚ)| ≤ 1 := by rw [abs_of_pos (by norm_num)]; norm_num
    have hA0 : |(0 : ℚ)| ≤ 1 := by rw [abs_zero]; norm_num
    have ho1 := osc_sine_x_zero m hm hPI _ 5.0 0.001 hb1 hc5 hA1
    have ho2 := osc_sine_x_zero m hm hPI _ 0 0 hb2 hc0 hA0
    have ho3 := osc_sine_x_zero m hm hPI _ 0 0 hb3 hc0 hA0
    simp only [instrument_bell.sound_x, sub_self, hx, hs1, hs2, hs3, ho1, ho2, ho3]
    exact bell_mix_x_zero _ _ _ (abs_le.mpr (hm _)) (abs_le.mpr (hm _)) (abs_le.mpr (hm _))
  · have hk : instrument_bell.kind = instrument_kind.bell := rfl
    simp only [instrument_base.sound, hk, instrument_bell.sound, h0]
    ring

theorem C13_bell_silent_at_on_time_witness :
    instrument_bell.env.amplitude_x held_note.on_ held_note.on_ held_note.off = .fin 0
      ∧ instrument_bell.sound_x libm_model instrument_bell held_note.on_ held_note = .fin 0
      ∧ env held_note.on_ instrument_bell.env held_note.on_ held_note.off = 0
      ∧ (instrument_base.sound libm_model instrument_bell held_note.on_ held_note false 0).1
        = 0 :=
  C13_bell_silent_at_on_time libm_model held_note false 0 libm_model_sinBounded
    (by norm_num [libm_model, abs_le]) (by norm_num [held_note])
    (by norm_num [held_note]) (by norm_num [held_note])

/-! ## The sequencer loop in double arithmetic -/

theorem round_half_even_near (x : ℚ) (z : ℤ) (h : |x - z| < 1 / 2) :
    round_half_even x = z := by
  obtain ⟨h1, h2⟩ := abs_lt.mp h
  unfold round_half_even
  rcases le_or_lt (z : ℚ) x with hz | hz
  · have hf : ⌊x⌋ = z := by
      rw [Int.floor_eq_iff]; constructor <;> linarith
    rw [hf, if_pos (by linarith)]
  · have hf : ⌊x⌋ = z - 1 := by
      rw [Int.floor_eq_iff]; push_cast; constructor <;> linarith
    rw [hf]
    push_cast
    rw [if_neg (by linarith), if_pos (by linarith)]
    ring

theorem round_half_even_tie_up (x : ℚ) (z : ℤ) (h : x = z - 1 / 2) (he : z % 2 = 0) :
    round_half_even x = z := by
  have hf : ⌊x⌋ = z - 1 := by
    rw [Int.floor_eq_iff]; push_cast; constructor <;> linarith
  unfold round_half_even
  rw [hf]
  push_cast
  rw [if_neg (by linarith), if_neg (by linarith), if_neg (by omega)]
  ring

theorem int_log_two (q : ℚ) (e : ℤ) (h1 : (2 : ℚ) ^ e ≤ q) (h2 : q < 2 ^ (e + 1)) :
    Int.log 2 q = e := by
  have hq : 0 < q := lt_of_lt_of_le (by positivity) h1
  apply le_antisymm
  · have := (Int.lt_zpow_iff_log_lt (b := 2) (by norm_num) hq).mp (by exact_mod_cast h2)
    omega
  · exact (Int.zpow_le_iff_le_log (b := 2) (by norm_num) hq).mp (by exact_mod_cast h1)

/-- The double nearest to a positive `q` in the binade of exponent `e`. -/
theorem round_double_eq (q : ℚ) (e z : ℤ) (h1 : (2 : ℚ) ^ e ≤ q) (h2 : q < 2 ^ (e + 1))
    (hz : round_half_even (q / 2 ^ (e - 52)) = z) : round_double q = z * 2 ^ (e - 52) := by
  have hq : 0 < q := lt_of_lt_of_le (by positivity) h1
  unfold round_double
  rw [if_neg hq.ne', abs_of_pos hq, int_log_two q e h1 h2, hz]

theorem seq_main_fBeatTime : seq_main.fBeatTime = 6004799503160661 / 2 ^ 55 := by
  have h1 : round_double (60 / 90) = 6004799503160661 / 2 ^ 53 := by
    rw [round_double_eq _ (-1) 6004799503160661 (by norm_num) (by norm_num)
      (round_half_even_near _ _ (by norm_num [abs_lt]))]
    norm_num
  have h2 : round_double (6004799503160661 / 2 ^ 53 / ((4 : ℤ) : FTYPE))
      = 6004799503160661 / 2 ^ 55 := by
    rw [round_double_eq _ (-3) 6004799503160661 (by norm_num) (by norm_num)
      (round_half_even_near _ _ (by norm_num [abs_lt]))]
    norm_num
  simp only [seq_main, sequencer.new_fl, h1, h2]

theorem round_double_two : round_double (0 + 2) = 2 := by
  rw [round_double_eq _ 1 4503599627370496 (by norm_num) (by norm_num)
    (round_half_even_near _ _ (by norm_num [abs_lt]))]
  norm_num

theorem seq_main_round_1 :
    round_double (2 - seq_main.fBeatTime) = (8256599316845909 / 2 ^ 52) := by
  rw [seq_main_fBeatTime, round_double_eq _ (0) 8256599316845909 (by norm_num) (by norm_num)
    (round_half_even_near _ _ (by norm_num [abs_lt]))]
  norm_num

theorem seq_main_round_2 :
    round_double ((8256599316845909 / 2 ^ 52) - seq_main.fBeatTime)
      = (3752999689475413 / 2 ^ 51) := by
  rw [seq_main_fBeatTime, round_double_eq _ (0) 7505999378950826 (by norm_num) (by norm_num)
    (round_half_even_near _ _ (by norm_num [abs_lt]))]
  norm_num

theorem seq_main_round_3 :
    round_double ((3752999689475413 / 2 ^ 51) - seq_main.fBeatTime)
      = (6755399441055743 / 2 ^ 52) := by
  rw [seq_main_fBeatTime, round_double_eq _ (0) 6755399441055743 (by norm_num) (by norm_num)
    (round_half_even_near _ _ (by norm_num [abs_lt]))]
  norm_num

theorem seq_main_round_4 :
    round_double ((6755399441055743 / 2 ^ 52) - seq_main.fBeatTime)
      = (1501199875790165 / 2 ^ 50) := by
  rw [seq_main_fBeatTime, round_double_eq _ (0) 6004799503160660 (by norm_num) (by norm_num)
    (round_half_even_near _ _ (by norm_num [abs_lt]))]
  norm_num

theorem seq_main_round_5 :
    round_double ((1501199875790165 / 2 ^ 50) - seq_main.fBeatTime)
      = (5254199565265577 / 2 ^ 52) := by
  rw [seq_main_fBeatTime, round_double_eq _ (0) 5254199565265577 (by norm_num) (by norm_num)
    (round_half_even_near _ _ (by norm_num [abs_lt]))]
  norm_num

theorem seq_main_round_6 :
    round_double ((5254199565265577 / 2 ^ 52) - seq_main.fBeatTime)
      = (9007199254740989 / 2 ^ 53) := by
  rw [seq_main_fBeatTime, round_double_eq _ (-1) 9007199254740989 (by norm_num) (by norm_num)
    (round_half_even_near _ _ (by norm_num [abs_lt]))]
  norm_num

theorem seq_main_round_7 :
    round_double ((9007199254740989 / 2 ^ 53) - seq_main.fBeatTime)
      = (938249922368853 / 2 ^ 50) := by
  rw [seq_main_fBeatTime, round_double_eq _ (-1) 7505999378950824 (by norm_num) (by norm_num)
    (round_half_even_near _ _ (by norm_num [abs_lt]))]
  norm_num

theorem seq_main_round_8 :
    round_double ((938249922368853 / 2 ^ 50) - seq_main.fBeatTime)
      = (6004799503160659 / 2 ^ 53) := by
  rw [seq_main_fBeatTime, round_double_eq _ (-1) 6004799503160659 (by norm_num) (by norm_num)
    (round_half_even_near _ _ (by norm_num [abs_lt]))]
  norm_num

theorem seq_main_round_9 :
    round_double ((6004799503160659 / 2 ^ 53) - seq_main.fBeatTime)
      = (2251799813685247 / 2 ^ 52) := by
  rw [seq_main_fBeatTime, round_double_eq _ (-2) 9007199254740988 (by norm_num) (by norm_num)
    (round_half_even_tie_up _ _ (by norm_num) (by norm_num))]
  norm_num

theorem seq_main_round_10 :
    round_double ((2251799813685247 / 2 ^ 52) - seq_main.fBeatTime)
      = (3002399751580329 / 2 ^ 53) := by
  rw [seq_main_fBeatTime, round_double_eq _ (-2) 6004799503160658 (by norm_num) (by norm_num)
    (round_half_even_tie_up _ _ (by norm_num) (by norm_num))]
  norm_num

theorem seq_main_round_11 :
    round_double ((3002399751580329 / 2 ^ 53) - seq_main.fBeatTime)
      = (6004799503160655 / 2 ^ 55) := by
  rw [seq_main_fBeatTime, round_double_eq _ (-3) 6004799503160655 (by norm_num) (by norm_num)
    (round_half_even_near _ _ (by norm_num [abs_lt]))]
  norm_num

theorem seq_main_at_fields (k : Int) (x : FTYPE) :
    (seq_main_at k x).fBeatTime = seq_main.fBeatTime ∧ (seq_main_at k x).fAccumulate = x
      ∧ (seq_main_at k x).nCurrentBeat = k ∧ (seq_main_at k x).nTotalBeats = 16
      ∧ (seq_main_at k x).vecChannel = [] ∧ (seq_main_at k x).vecNotes = [] := by
  refine ⟨rfl, rfl, rfl, ?_, rfl, rfl⟩
  simp [seq_main_at, seq_main, sequencer.new_fl, sequencer.new]

theorem sub_beat_fl_seq_main (k : Int) (x y : FTYPE) (hk : k + 1 < 16)
    (hr : round_double (x - seq_main.fBeatTime) = y) :
    (seq_main_at k x).sub_beat_fl = seq_main_at (k + 1) y := by
  obtain ⟨_, _, _, hN, _, _⟩ := seq_main_at_fields k x
  have hn : next_step (seq_main_at k x).nTotalBeats (seq_main_at k x).nCurrentBeat = k + 1 := by
    rw [hN]
    show next_step 16 k = k + 1
    unfold next_step
    rw [if_neg (by linarith)]
  unfold sequencer.sub_beat_fl
  rw [sub_beat_eq, hn]
  show _ = seq_main_at (k + 1) y
  rw [← hr]
  rfl

theorem while_loop_fl_exit (fuel : ℕ) (s : sequencer) (h : s.fAccumulate < s.fBeatTime) :
    sequencer.while_loop_fl fuel s = some s := by
  cases fuel <;> simp [sequencer.while_loop_fl, not_le.mpr h]

theorem while_loop_fl_step (fuel : ℕ) (k : Int) (x y : FTYPE) (hk : k + 1 < 16)
    (hx : seq_main.fBeatTime ≤ x) (hr : round_double (x - seq_main.fBeatTime) = y) :
    sequencer.while_loop_fl (fuel + 1) (seq_main_at k x)
      = sequencer.while_loop_fl fuel (seq_main_at (k + 1) y) := by
  have hge : (seq_main_at k x).fAccumulate ≥ (seq_main_at k x).fBeatTime := hx
  simp only [sequencer.while_loop_fl, hge, if_true, sub_beat_fl_seq_main k x y hk hr]

theorem while_loop_fl_stuck (k : Int) (x : FTYPE) (hx : seq_main.fBeatTime ≤ x) :
    sequencer.while_loop_fl 0 (seq_main_at k x) = none := by
  have hge : (seq_main_at k x).fAccumulate ≥ (seq_main_at k x).fBeatTime := hx
  simp only [sequencer.while_loop_fl, hge, if_true]

/-- From the accumulator 2 the loop in double arithmetic runs 11 times and stops. -/
theorem seq_main_run (fuel : ℕ) :
    sequencer.while_loop_fl (fuel + 11) (seq_main_at 0 2)
      = some (seq_main_at 11 (6004799503160655 / 2 ^ 55)) := by
  rw [show fuel + 11 = fuel + 10 + 1 from rfl,
    while_loop_fl_step _ 0 _ _ (by norm_num)
      (by rw [seq_main_fBeatTime]; norm_num) seq_main_round_1]
  rw [show (0 : Int) + 1 = 1 from rfl]
  rw [show fuel + 10 = fuel + 9 + 1 from rfl,
    while_loop_fl_step _ 1 _ _ (by norm_num)
      (by rw [seq_main_fBeatTime]; norm_num) seq_main_round_2]
  rw [show (1 : Int) + 1 = 2 from rfl]
  rw [show fuel + 9 = fuel + 8 + 1 from rfl,
    while_loop_fl_step _ 2 _ _ (by norm_num)
      (by rw [seq_main_fBeatTime]; norm_num) seq_main_round_3]
  rw [show (2 : Int) + 1 = 3 from rfl]
  rw [show fuel + 8 = fuel + 7 + 1 from rfl,
    while_loop_fl_step _ 3 _ _ (by norm_num)
      (by rw [seq_main_fBeatTime]; norm_num) seq_main_round_4]
  rw [show (3 : Int) + 1 = 4 from rfl]
  rw [show fuel + 7 = fuel + 6 + 1 from rfl,
    while_loop_fl_step _ 4 _ _ (by norm_num)
      (by rw [seq_main_fBeatTime]; norm_num) seq_main_round_5]
  rw [show (4 : Int) + 1 = 5 from rfl]
  rw [show fuel + 6 = fuel + 5 + 1 from rfl,
    while_loop_fl_step _ 5 _ _ (by norm_num)
      (by rw [seq_main_fBeatTime]; norm_num) seq_main_round_6]
  rw [show (5 : Int) + 1 = 6 from rfl]
  rw [show fuel + 5 = fuel + 4 + 1 from rfl,
    while_loop_fl_step _ 6 _ _ (by norm_num)
      (by rw [seq_main_fBeatTime]; norm_num) seq_main_round_7]
  rw [show (6 : Int) + 1 = 7 from rfl]
  rw [show fuel + 4 = fuel + 3 + 1 from rfl,
    while_loop_fl_step _ 7 _ _ (by norm_num)
      (by rw [seq_main_fBeatTime]; norm_num) seq_main_round_8]
  rw [show (7 : Int) + 1 = 8 from rfl]
  rw [show fuel + 3 = fuel + 2 + 1 from rfl,
    while_loop_fl_step _ 8 _ _ (by norm_num)
      (by rw [seq_main_fBeatTime]; norm_num) seq_main_round_9]
  rw [show (8 : Int) + 1 = 9 from rfl]
  rw [show fuel + 2 = fuel + 1 + 1 from rfl,
    while_loop_fl_step _ 9 _ _ (by norm_num)
      (by rw [seq_main_fBeatTime]; norm_num) seq_main_round_10]
  rw [show (9 : Int) + 1 = 10 from rfl]
  rw [show fuel + 1 = fuel + 0 + 1 from rfl,
    while_loop_fl_step _ 10 _ _ (by norm_num)
      (by rw [seq_main_fBeatTime]; norm_num) seq_main_round_11]
  rw [show (10 : Int) + 1 = 11 from rfl]
  exact while_loop_fl_exit _ _ (by
    show (6004799503160655 / 2 ^ 55) < seq_main.fBeatTime
    rw [seq_main_fBeatTime]; norm_num)

/-- With 10 iterations allowed the loop has not stopped. -/
theorem seq_main_run_short :
    sequencer.while_loop_fl 10 (seq_main_at 0 2) = none := by
  rw [show (10 : ℕ) = 9 + 1 from rfl,
    while_loop_fl_step _ 0 _ _ (by norm_num)
      (by rw [seq_main_fBeatTime]; norm_num) seq_main_round_1]
  rw [show (0 : Int) + 1 = 1 from rfl]
  rw [show (9 : ℕ) = 8 + 1 from rfl,
    while_loop_fl_step _ 1 _ _ (by norm_num)
      (by rw [seq_main_fBeatTime]; norm_num) seq_main_round_2]
  rw [show (1 : Int) + 1 = 2 from rfl]
  rw [show (8 : ℕ) = 7 + 1 from rfl,
    while_loop_fl_step _ 2 _ _ (by norm_num)
      (by rw [seq_main_fBeatTime]; norm_num) seq_main_round_3]
  rw [show (2 : Int) + 1 = 3 from rfl]
  rw [show (7 : ℕ) = 6 + 1 from rfl,
    while_loop_fl_step _ 3 _ _ (by norm_num)
      (by rw [seq_main_fBeatTime]; norm_num) seq_main_round_4]
  rw [show (3 : Int) + 1 = 4 from rfl]
  rw [show (6 : ℕ) = 5 + 1 from rfl,
    while_loop_fl_step _ 4 _ _ (by norm_num)
      (by rw [seq_main_fBeatTime]; norm_num) seq_main_round_5]
  rw [show (4 : Int) + 1 = 5 from rfl]
  rw [show (5 : ℕ) = 4 + 1 from rfl,
    while_loop_fl_step _ 5 _ _ (by norm_num)
      (by rw [seq_main_fBeatTime]; norm_num) seq_main_round_6]
  rw [show (5 : Int) + 1 = 6 from rfl]
  rw [show (4 : ℕ) = 3 + 1 from rfl,
    while_loop_fl_step _ 6 _ _ (by norm_num)
      (by rw [seq_main_fBeatTime]; norm_num) seq_main_round_7]
  rw [show (6 : Int) + 1 = 7 from rfl]
  rw [show (3 : ℕ) = 2 + 1 from rfl,
    while_loop_fl_step _ 7 _ _ (by norm_num)
      (by rw [seq_main_fBeatTime]; norm_num) seq_main_round_8]
  rw [show (7 : Int) + 1 = 8 from rfl]
  rw [show (2 : ℕ) = 1 + 1 from rfl,
    while_loop_fl_step _ 8 _ _ (by norm_num)
      (by rw [seq_main_fBeatTime]; norm_num) seq_main_round_9]
  rw [show (8 : Int) + 1 = 9 from rfl]
  rw [show (1 : ℕ) = 0 + 1 from rfl,
    while_loop_fl_step _ 9 _ _ (by norm_num)
      (by rw [seq_main_fBeatTime]; norm_num) seq_main_round_10]
  rw [show (9 : Int) + 1 = 10 from rfl]
  exact while_loop_fl_stuck _ _ (by rw [seq_main_fBeatTime]; norm_num)

theorem Update_fl_seq_main (fuel : ℕ) :
    sequencer.Update_fl fuel seq_main 2
      = (sequencer.while_loop_fl fuel (seq_main_at 0 2)).map
          fun s3 => ((s3.vecNotes.length : Int), s3) := by
  have h : round_double (seq_main.fAccumulate + 2) = 2 := round_double_two
  unfold sequencer.Update_fl
  simp only [h]
  rfl

/-- C18 (counterexample). On the sequencer `seq(90.0)` of `main`, whose sub-beat duration
is the double nearest to `1 / 6`, with accumulator 0 and step 0, `floor(2 / d)` is 12 but
`Update(2.0)` in double arithmetic runs the loop 11 times, not 12: it returns with 11
iterations and not with 10, leaves the step 11 and the accumulator
`6004799503160655 / 2 ^ 55`, about `0.1666666666666665`, which is not `2 - 12 * d`. -/
theorem C18_double_loop_stops_early :
    (0 < seq_main.fBeatTime ∧ seq_main.nTotalBeats = seq_main.nBeats * seq_main.nSubBeats
        ∧ 1 ≤ seq_main.nBeats * seq_main.nSubBeats ∧ 0 ≤ seq_main.nCurrentBeat
        ∧ seq_main.nCurrentBeat < seq_main.nBeats * seq_main.nSubBeats
        ∧ 0 ≤ seq_main.fAccumulate + 2)
      ∧ ⌊(seq_main.fAccumulate + 2) / seq_main.fBeatTime⌋ = 12
      ∧ (∀ fuel, sequencer.Update_fl (fuel + 11) seq_main 2
          = some (0, seq_main_at 11 (6004799503160655 / 2 ^ 55)))
      ∧ sequencer.Update_fl 10 seq_main 2 = none
      ∧ (seq_main_at 11 (6004799503160655 / 2 ^ 55)).nCurrentBeat
          ≠ (seq_main.nCurrentBeat + 12) % (seq_main.nBeats * seq_main.nSubBeats)
      ∧ (seq_main_at 11 (6004799503160655 / 2 ^ 55)).fAccumulate
          ≠ seq_main.fAccumulate + 2 - 12 * seq_main.fBeatTime := by
  have hacc : seq_main.fAccumulate = 0 := rfl
  have hstep : seq_main.nCurrentBeat = 0 := rfl
  have hB : seq_main.nBeats = 4 := rfl
  have hS : seq_main.nSubBeats = 4 := rfl
  have hN : seq_main.nTotalBeats = 16 := by
    simp [seq_main, sequencer.new_fl, sequencer.new]
  refine ⟨⟨?_, ?_, ?_, ?_, ?_, ?_⟩, ?_, ?_, ?_, ?_, ?_⟩
  · rw [seq_main_fBeatTime]; norm_num
  · rw [hN, hB, hS]; norm_num
  · rw [hB, hS]; norm_num
  · rw [hstep]
  · rw [hstep, hB, hS]; norm_num
  · rw [hacc]; norm_num
  · rw [hacc, seq_main_fBeatTime, Int.floor_eq_iff]
    norm_num
  · intro fuel
    rw [Update_fl_seq_main, seq_main_run]
    rfl
  · rw [Update_fl_seq_main, seq_main_run_short]
    rfl
  · show (11 : Int) ≠ _
    rw [hstep, hB, hS]
    norm_num
  · show (6004799503160655 / 2 ^ 55) ≠ _
    rw [hacc, seq_main_fBeatTime]
    norm_num
